import Mathlib

/-!
Verification development for the smart_farm notification dispatcher
(mail_service.py, mail_service_simple.py, mail_service_ultralight.py and
the process_email_queue management command).

The Strategy C queue file is a JSON document.  We embed the JSON values the
queue uses (null, booleans, integers, strings, arrays, objects — the field
types written by `UltraLightMailService._queue_email`), the serializer
`json.dump(..., indent=2)` and the reader `json.load`, and prove the
round-trip needed by the durable-queue claims.
-/

namespace SmartFarm

/-- JSON values as used by the Strategy C queue file: `_queue_email` writes
objects whose fields are strings, `null`, integers and nested objects or
arrays (the `context` mapping).  Floats do not occur in any field the mail
services write, so they are outside the embedding. -/
inductive Json where
  | null : Json
  | bool : Bool → Json
  | int : Int → Json
  | str : String → Json
  | arr : List Json → Json
  | obj : List (String × Json) → Json
  deriving Repr

mutual

/-- Boolean equality on JSON values (structural). -/
def beqJson : Json → Json → Bool
  | .null, .null => true
  | .bool a, .bool b => a == b
  | .int a, .int b => a == b
  | .str a, .str b => a == b
  | .arr a, .arr b => beqJsonList a b
  | .obj a, .obj b => beqJsonObj a b
  | _, _ => false

/-- Boolean equality on JSON arrays. -/
def beqJsonList : List Json → List Json → Bool
  | [], [] => true
  | x :: xs, y :: ys => beqJson x y && beqJsonList xs ys
  | _, _ => false

/-- Boolean equality on JSON object member lists. -/
def beqJsonObj : List (String × Json) → List (String × Json) → Bool
  | [], [] => true
  | (k, v) :: xs, (l, w) :: ys => k == l && (beqJson v w && beqJsonObj xs ys)
  | _, _ => false

end

mutual

theorem beqJson_iff : ∀ a b : Json, beqJson a b = true ↔ a = b
  | .null, b => by cases b <;> simp [beqJson]
  | .bool a, b => by cases b <;> simp [beqJson]
  | .int a, b => by cases b <;> simp [beqJson]
  | .str a, b => by cases b <;> simp [beqJson]
  | .arr a, b => by
      cases b <;> simp [beqJson]
      exact beqJsonList_iff a _
  | .obj a, b => by
      cases b <;> simp [beqJson]
      exact beqJsonObj_iff a _

theorem beqJsonList_iff : ∀ a b : List Json, beqJsonList a b = true ↔ a = b
  | [], b => by cases b <;> simp [beqJsonList]
  | x :: xs, b => by
      cases b with
      | nil => simp [beqJsonList]
      | cons y ys =>
          simp only [beqJsonList, Bool.and_eq_true, List.cons.injEq]
          exact and_congr (beqJson_iff x y) (beqJsonList_iff xs ys)

theorem beqJsonObj_iff :
    ∀ a b : List (String × Json), beqJsonObj a b = true ↔ a = b
  | [], b => by cases b <;> simp [beqJsonObj]
  | (k, v) :: xs, b => by
      cases b with
      | nil => simp [beqJsonObj]
      | cons y ys =>
          obtain ⟨l, w⟩ := y
          simp only [beqJsonObj, Bool.and_eq_true, List.cons.injEq, Prod.mk.injEq,
            beq_iff_eq]
          rw [beqJson_iff v w, beqJsonObj_iff xs ys, and_assoc]

end

instance : DecidableEq Json := fun a b =>
  decidable_of_iff (beqJson a b = true) (beqJson_iff a b)

/-- Lowercase hexadecimal digit, as produced by CPython's `'\u%04x'`
formatting of escaped characters. -/
def hexDigit (n : Nat) : Char :=
  if n < 10 then Char.ofNat (48 + n) else Char.ofNat (87 + n)

/-- Four lowercase hex digits for a code unit below 0x10000. -/
def hex4 (n : Nat) : List Char :=
  [hexDigit (n / 4096 % 16), hexDigit (n / 256 % 16), hexDigit (n / 16 % 16), hexDigit (n % 16)]

/-- Escape of one character inside a JSON string, following CPython's
`json.encoder.py_encode_basestring_ascii`: `"` and `\` and the C0 controls
with short names get two-character escapes, the remaining characters outside
the printable ASCII range become `\uXXXX` (a surrogate pair above 0xFFFF),
and printable ASCII is emitted literally. -/
def escChar (c : Char) : List Char :=
  if c = '"' then ['\\', '"']
  else if c = '\\' then ['\\', '\\']
  else if c = '\n' then ['\\', 'n']
  else if c = '\r' then ['\\', 'r']
  else if c = '\t' then ['\\', 't']
  else if c.toNat = 8 then ['\\', 'b']
  else if c.toNat = 12 then ['\\', 'f']
  else if c.toNat < 32 then '\\' :: 'u' :: hex4 c.toNat
  else if c.toNat ≤ 126 then [c]
  else if c.toNat < 65536 then '\\' :: 'u' :: hex4 c.toNat
  else
    '\\' :: 'u' :: hex4 (55296 + (c.toNat - 65536) / 1024) ++
      '\\' :: 'u' :: hex4 (56320 + (c.toNat - 65536) % 1024)

/-- Serialized form of a JSON string: quote, escaped characters, quote. -/
def escString (s : String) : List Char :=
  '"' :: (s.data.map escChar).flatten ++ ['"']

/-- Decimal digits with an explicit recursion bound (`n / 10` shrinks at
every step, so any fuel above `n` suffices). -/
def natCharsAux : Nat → Nat → List Char
  | 0, _ => []
  | fuel + 1, n =>
    if n < 10 then [hexDigit n]
    else natCharsAux fuel (n / 10) ++ [hexDigit (n % 10)]

/-- Decimal digits of a natural number, most significant first
(the digits of CPython's `repr` of a non-negative int). -/
def natChars (n : Nat) : List Char :=
  natCharsAux (n + 1) n

/-- CPython `repr` of an int: optional minus sign then decimal digits. -/
def intChars (n : Int) : List Char :=
  if n < 0 then '-' :: natChars n.natAbs else natChars n.toNat

mutual

/-- Characters written by `json.dump(v, f, indent=2)` for a value at nesting
level `lvl` (CPython's `_make_iterencode` with `indent='  '` and the default
separators `(',', ': ')`). -/
def dumpVal : Json → Nat → List Char
  | .null, _ => ['n', 'u', 'l', 'l']
  | .bool true, _ => ['t', 'r', 'u', 'e']
  | .bool false, _ => ['f', 'a', 'l', 's', 'e']
  | .int n, _ => intChars n
  | .str s, _ => escString s
  | .arr [], _ => ['[', ']']
  | .arr (x :: xs), lvl =>
      '[' :: dumpItems (x :: xs) (lvl + 1) ++
        '\n' :: List.replicate (2 * lvl) ' ' ++ [']']
  | .obj [], _ => ['\x7b', '\x7d']
  | .obj (kv :: kvs), lvl =>
      '\x7b' :: dumpMembers (kv :: kvs) (lvl + 1) ++
        '\n' :: List.replicate (2 * lvl) ' ' ++ ['\x7d']

/-- Array items: each on its own line at indent `2*lvl`, separated by commas. -/
def dumpItems : List Json → Nat → List Char
  | [], _ => []
  | [x], lvl => '\n' :: List.replicate (2 * lvl) ' ' ++ dumpVal x lvl
  | x :: y :: xs, lvl =>
      '\n' :: List.replicate (2 * lvl) ' ' ++ dumpVal x lvl ++
        ',' :: dumpItems (y :: xs) lvl

/-- Object members: `"key": value` lines at indent `2*lvl`, comma separated. -/
def dumpMembers : List (String × Json) → Nat → List Char
  | [], _ => []
  | [(k, v)], lvl =>
      '\n' :: List.replicate (2 * lvl) ' ' ++ escString k ++
        ':' :: ' ' :: dumpVal v lvl
  | (k, v) :: m :: ms, lvl =>
      '\n' :: List.replicate (2 * lvl) ' ' ++ escString k ++
        ':' :: ' ' :: dumpVal v lvl ++ ',' :: dumpMembers (m :: ms) lvl

end

/-- Model of `json.dump(v, f, indent=2)`: the full text written to the file. -/
def pyJsonDumpsIndent (v : Json) : String :=
  String.mk (dumpVal v 0)

/-- Model of `json.dump(v, f)` with default arguments for an empty list,
which is the only call without `indent` in the sources
(`_queue_email` creating a fresh queue file writes `json.dump([], f)`). -/
def pyJsonDumpsEmptyList : String :=
  String.mk ['[', ']']

/-- The whitespace characters `json.decoder` skips between tokens. -/
def isWsChar (c : Char) : Bool :=
  c = ' ' || c = '\t' || c = '\n' || c = '\r'

/-- Drop leading JSON whitespace. -/
def skipWs : List Char → List Char
  | [] => []
  | c :: cs => if isWsChar c then skipWs cs else c :: cs

/-- Decimal digit test (`0`–`9`). -/
def isDigitC (c : Char) : Bool :=
  48 ≤ c.toNat && c.toNat ≤ 57

/-- Value of one hexadecimal digit, either case. -/
def hexVal (c : Char) : Option Nat :=
  if 48 ≤ c.toNat && c.toNat ≤ 57 then some (c.toNat - 48)
  else if 97 ≤ c.toNat && c.toNat ≤ 102 then some (c.toNat - 87)
  else if 65 ≤ c.toNat && c.toNat ≤ 70 then some (c.toNat - 55)
  else none

/-- Value of a `\uXXXX` escape's four hex digits. -/
def hexQuad (a b c d : Char) : Option Nat :=
  match hexVal a, hexVal b, hexVal c, hexVal d with
  | some va, some vb, some vc, some vd => some (va * 4096 + vb * 256 + vc * 16 + vd)
  | _, _, _, _ => none

/-- Single-character escapes accepted after a backslash
(`json.decoder.BACKSLASH`). -/
def escapeOf (e : Char) : Option Char :=
  if e = '"' then some '"'
  else if e = '\\' then some '\\'
  else if e = '/' then some '/'
  else if e = 'b' then some (Char.ofNat 8)
  else if e = 'f' then some (Char.ofNat 12)
  else if e = 'n' then some '\n'
  else if e = 'r' then some '\r'
  else if e = 't' then some '\t'
  else none

/-- Decode the four-hex-digit escape forms (`\uXXXX`, possibly a surrogate
pair) after `\u` has been consumed. -/
def unescapeU : List Char → Option (Char × List Char)
  | h1 :: h2 :: h3 :: h4 :: cs3 =>
    match hexQuad h1 h2 h3 h4 with
    | none => none
    | some n =>
      if 55296 ≤ n ∧ n ≤ 56319 then
        match cs3 with
        | b1 :: b2 :: g1 :: g2 :: g3 :: g4 :: cs4 =>
          if b1 = '\\' ∧ b2 = 'u' then
            match hexQuad g1 g2 g3 g4 with
            | some m =>
              if 56320 ≤ m ∧ m ≤ 57343 then
                some (Char.ofNat (65536 + (n - 55296) * 1024 + (m - 56320)), cs4)
              else none
            | none => none
          else none
        | _ => none
      else if 56320 ≤ n ∧ n ≤ 57343 then none
      else some (Char.ofNat n, cs3)
  | _ => none

/-- Decode the escape following a backslash, following
`json.decoder.py_scanstring` in strict mode: the short table plus the
`\uXXXX` forms of `unescapeU`.  Returns the decoded character and the
remaining input.  (Python tolerates an unpaired surrogate escape; such a
code point has no `Char` representation, so the model rejects it —
`json.dump` output never contains one.) -/
def unescape : List Char → Option (Char × List Char)
  | [] => none
  | e :: cs2 =>
    if e = 'u' then unescapeU cs2
    else
      match escapeOf e with
      | some ch => some (ch, cs2)
      | none => none

/-- One step of `py_scanstring` per unit of fuel; every step consumes at
least one input character, so `length + 1` fuel always suffices. -/
def parseStrBody : Nat → List Char → Option (List Char × List Char)
  | 0, _ => none
  | _ + 1, [] => none
  | fuel + 1, c :: cs =>
    if c = '"' then some ([], cs)
    else if c = '\\' then
      match unescape cs with
      | none => none
      | some (ch, cs2) => (parseStrBody fuel cs2).map (fun p => (ch :: p.1, p.2))
    else if 32 ≤ c.toNat then (parseStrBody fuel cs).map (fun p => (c :: p.1, p.2))
    else none

/-- Scan a complete JSON string body (after the opening quote). -/
def parseStr (cs : List Char) : Option (List Char × List Char) :=
  parseStrBody (cs.length + 1) cs

/-- Maximal run of decimal digits, then its value (most significant first). -/
def parseNatTok (cs : List Char) : Option (Nat × List Char) :=
  let ds := cs.takeWhile isDigitC
  let rest := cs.dropWhile isDigitC
  if ds.isEmpty then none
  else some (ds.foldl (fun a c => 10 * a + (c.toNat - 48)) 0, rest)

/-- Integer token: optional minus sign then digits.  The queue file only
ever contains integers (no field written by the mail services is a float),
so the number grammar of the model is the integer fragment. -/
def parseIntTok : List Char → Option (Int × List Char)
  | [] => none
  | c :: cs =>
    if c = '-' then (parseNatTok cs).map (fun p => (-(p.1 : Int), p.2))
    else (parseNatTok (c :: cs)).map (fun p => ((p.1 : Int), p.2))

/-- Literal tail of `true` after the initial `t`. -/
def parseTrueTail : List Char → Option (Json × List Char)
  | 'r' :: 'u' :: 'e' :: cs2 => some (Json.bool true, cs2)
  | _ => none

/-- Literal tail of `false` after the initial `f`. -/
def parseFalseTail : List Char → Option (Json × List Char)
  | 'a' :: 'l' :: 's' :: 'e' :: cs2 => some (Json.bool false, cs2)
  | _ => none

/-- Literal tail of `null` after the initial `n`. -/
def parseNullTail : List Char → Option (Json × List Char)
  | 'u' :: 'l' :: 'l' :: cs2 => some (Json.null, cs2)
  | _ => none

mutual

/-- Recursive-descent reader for one JSON value, following
`json.decoder.JSONDecoder` (`py_make_scanner`): skip whitespace, then
dispatch on the first character.  `fuel` bounds the recursion depth;
`pyJsonLoads` supplies more fuel than any document of the given length can
consume. -/
def parseVal : Nat → List Char → Option (Json × List Char)
  | 0, _ => none
  | Nat.succ fuel, cs =>
    match skipWs cs with
    | [] => none
    | c :: cs1 =>
      if c = '"' then
        (parseStr cs1).map (fun p => (Json.str (String.mk p.1), p.2))
      else if c = '[' then
        match skipWs cs1 with
        | [] => none
        | d :: cs2 =>
          if d = ']' then some (Json.arr [], cs2)
          else (parseItems fuel (d :: cs2)).map (fun p => (Json.arr p.1, p.2))
      else if c = '\x7b' then
        match skipWs cs1 with
        | [] => none
        | d :: cs2 =>
          if d = '\x7d' then some (Json.obj [], cs2)
          else (parseMembers fuel (d :: cs2)).map (fun p => (Json.obj p.1, p.2))
      else if c = 't' then parseTrueTail cs1
      else if c = 'f' then parseFalseTail cs1
      else if c = 'n' then parseNullTail cs1
      else if c = '-' || isDigitC c then
        (parseIntTok (c :: cs1)).map (fun p => (Json.int p.1, p.2))
      else none

/-- One or more array items separated by commas, ending at `]`
(called after the opening bracket of a non-empty array). -/
def parseItems : Nat → List Char → Option (List Json × List Char)
  | 0, _ => none
  | Nat.succ fuel, cs =>
    match parseVal fuel cs with
    | none => none
    | some (v, rest) =>
      match skipWs rest with
      | [] => none
      | d :: rest2 =>
        if d = ',' then (parseItems fuel rest2).map (fun p => (v :: p.1, p.2))
        else if d = ']' then some ([v], rest2)
        else none

/-- One or more `"key": value` members separated by commas, ending at the
closing brace (called after the opening brace of a non-empty object). -/
def parseMembers : Nat → List Char → Option (List (String × Json) × List Char)
  | 0, _ => none
  | Nat.succ fuel, cs =>
    match skipWs cs with
    | [] => none
    | q :: cs1 =>
      if q = '"' then
        match parseStr cs1 with
        | none => none
        | some (k, rest) =>
          match skipWs rest with
          | [] => none
          | o :: rest2 =>
            if o = ':' then
              match parseVal fuel rest2 with
              | none => none
              | some (v, rest3) =>
                match skipWs rest3 with
                | [] => none
                | d :: rest4 =>
                  if d = ',' then
                    (parseMembers fuel rest4).map (fun p => ((String.mk k, v) :: p.1, p.2))
                  else if d = '\x7d' then some ([(String.mk k, v)], rest4)
                  else none
            else none
      else none

end

/-- Model of `json.load(f)`: parse one JSON document and require only
whitespace after it.  The fuel `2 * length + 2` dominates the recursion
depth of any input of that length. -/
def pyJsonLoads (s : String) : Option Json :=
  match parseVal (2 * s.data.length + 2) s.data with
  | some (v, rest) => if skipWs rest = [] then some v else none
  | none => none

/-! Round-trip: `json.load` reads back exactly what `json.dump(..., indent=2)`
wrote.  The lemmas below culminate in `pyJsonLoads_dumpsIndent`. -/

theorem char_isValid (c : Char) : Nat.isValidChar c.toNat := c.valid

theorem toNat_ofNat_valid (n : Nat) (h : n.isValidChar) : (Char.ofNat n).toNat = n := by
  unfold Char.ofNat
  rw [dif_pos h]
  rfl

theorem skipWs_cons_of_not_ws {c : Char} (h : isWsChar c = false) (cs : List Char) :
    skipWs (c :: cs) = c :: cs := by
  simp [skipWs, h]

theorem skipWs_cons_of_ws {c : Char} (h : isWsChar c = true) (cs : List Char) :
    skipWs (c :: cs) = skipWs cs := by
  simp [skipWs, h]

theorem skipWs_replicate_space (k : Nat) (cs : List Char) :
    skipWs (List.replicate k ' ' ++ cs) = skipWs cs := by
  induction k with
  | zero => rfl
  | succ k ih => simpa [List.replicate_succ, skipWs, isWsChar] using ih

theorem skipWs_newline (cs : List Char) : skipWs ('\n' :: cs) = skipWs cs := by
  simp [skipWs, isWsChar]

theorem isDigitC_iff {c : Char} : isDigitC c = true ↔ 48 ≤ c.toNat ∧ c.toNat ≤ 57 := by
  simp [isDigitC]

theorem hexDigit_toNat {d : Nat} (h : d < 16) : (hexDigit d).toNat = if d < 10 then 48 + d else 87 + d := by
  unfold hexDigit
  split
  · exact (toNat_ofNat_valid _ (Or.inl (by omega))).trans (by simp [*])
  · exact (toNat_ofNat_valid _ (Or.inl (by omega))).trans (by simp [*])

theorem isDigitC_hexDigit {d : Nat} (h : d < 10) : isDigitC (hexDigit d) = true := by
  rw [isDigitC_iff, hexDigit_toNat (by omega)]
  simp [h]
  omega

theorem hexVal_hexDigit : ∀ d : Nat, d < 16 → hexVal (hexDigit d) = some d := by
  decide

theorem hexQuad_hex4 {n : Nat} (h : n < 65536) :
    hexQuad (hexDigit (n / 4096 % 16)) (hexDigit (n / 256 % 16))
      (hexDigit (n / 16 % 16)) (hexDigit (n % 16)) = some n := by
  have h1 := hexVal_hexDigit (n / 4096 % 16) (Nat.mod_lt _ (by omega))
  have h2 := hexVal_hexDigit (n / 256 % 16) (Nat.mod_lt _ (by omega))
  have h3 := hexVal_hexDigit (n / 16 % 16) (Nat.mod_lt _ (by omega))
  have h4 := hexVal_hexDigit (n % 16) (Nat.mod_lt _ (by omega))
  simp only [hexQuad, h1, h2, h3, h4, Option.some.injEq]
  omega

theorem natCharsAux_stable :
    ∀ fuel fuel' n : Nat, n < fuel → n < fuel' → natCharsAux fuel n = natCharsAux fuel' n := by
  intro fuel
  induction fuel with
  | zero => omega
  | succ f ih =>
    intro fuel' n hn hn'
    obtain ⟨f', rfl⟩ : ∃ g, fuel' = g + 1 := ⟨fuel' - 1, by omega⟩
    rw [natCharsAux, natCharsAux]
    split
    · rfl
    · next h =>
      rw [ih f' (n / 10) (by omega) (by omega)]

theorem natChars_eq (n : Nat) :
    natChars n = if n < 10 then [hexDigit n]
      else natChars (n / 10) ++ [hexDigit (n % 10)] := by
  rw [natChars, natCharsAux]
  split
  · rfl
  · next h =>
    rw [natChars, natCharsAux_stable n (n / 10 + 1) (n / 10) (by omega) (by omega)]

theorem natChars_ne_nil (n : Nat) : natChars n ≠ [] := by
  rw [natChars_eq]
  split
  · simp
  · simp

theorem natChars_all_digits (n : Nat) : ∀ c ∈ natChars n, isDigitC c = true := by
  induction n using Nat.strong_induction_on with
  | _ n ih =>
    rw [natChars_eq]
    split
    · intro c hc
      rw [List.mem_singleton] at hc
      subst hc
      exact isDigitC_hexDigit (by omega)
    · intro c hc
      rw [List.mem_append] at hc
      rcases hc with hc | hc
      · exact ih (n / 10) (Nat.div_lt_self (by omega) (by omega)) c hc
      · rw [List.mem_singleton] at hc
        subst hc
        exact isDigitC_hexDigit (Nat.mod_lt _ (by omega))

theorem takeWhile_digits_append {ds rest : List Char}
    (hds : ∀ c ∈ ds, isDigitC c = true)
    (hrest : rest = [] ∨ ∃ d tl, rest = d :: tl ∧ isDigitC d = false) :
    (ds ++ rest).takeWhile isDigitC = ds ∧ (ds ++ rest).dropWhile isDigitC = rest := by
  induction ds with
  | nil =>
    rcases hrest with h | ⟨d, tl, h, hd⟩
    · subst h; simp
    · subst h
      simp [List.takeWhile, List.dropWhile, hd]
  | cons c cs ih =>
    have hc : isDigitC c = true := hds c (by simp)
    have := ih (fun x hx => hds x (by simp [hx]))
    simp only [List.cons_append, List.takeWhile, List.dropWhile, hc]
    simp [this.1, this.2]

theorem foldl_natChars (n : Nat) :
    ∀ acc : Nat,
      (natChars n).foldl (fun a c => 10 * a + (c.toNat - 48)) acc =
        acc * 10 ^ (natChars n).length + n := by
  induction n using Nat.strong_induction_on with
  | _ n ih =>
    intro acc
    rw [natChars_eq]
    split
    · next h =>
      simp only [List.foldl_cons, List.foldl_nil, List.length_singleton, pow_one,
        hexDigit_toNat (show n < 16 by omega), if_pos h]
      omega
    · next h =>
      rw [List.foldl_append, ih (n / 10) (Nat.div_lt_self (by omega) (by omega)) acc]
      have hmod : (hexDigit (n % 10)).toNat = 48 + n % 10 := by
        rw [hexDigit_toNat (show n % 10 < 16 by omega)]
        simp [show n % 10 < 10 by omega]
      simp only [List.foldl_cons, List.foldl_nil, hmod, List.length_append,
        List.length_singleton, pow_succ, ← mul_assoc]
      generalize acc * 10 ^ (natChars (n / 10)).length = A
      omega

theorem parseNatTok_natChars (n : Nat) {rest : List Char}
    (hrest : rest = [] ∨ ∃ d tl, rest = d :: tl ∧ isDigitC d = false) :
    parseNatTok (natChars n ++ rest) = some (n, rest) := by
  obtain ⟨ht, hd⟩ := takeWhile_digits_append (natChars_all_digits n) hrest
  have hempty : (natChars n).isEmpty = false := by
    cases hc : (natChars n).isEmpty
    · rfl
    · exact absurd (List.isEmpty_iff.mp hc) (natChars_ne_nil n)
  rw [parseNatTok]
  simp only [ht, hd, hempty, Bool.false_eq_true, if_false]
  rw [foldl_natChars n 0]
  simp

theorem digit_ne_minus {c : Char} (h : isDigitC c = true) : c ≠ '-' := by
  intro he
  rw [he] at h
  exact absurd h (by decide)

theorem parseIntTok_intChars (n : Int) {rest : List Char}
    (hrest : rest = [] ∨ ∃ d tl, rest = d :: tl ∧ isDigitC d = false) :
    parseIntTok (intChars n ++ rest) = some (n, rest) := by
  by_cases hn : n < 0
  · rw [intChars, if_pos hn, List.cons_append, parseIntTok, if_pos rfl,
      parseNatTok_natChars n.natAbs hrest]
    simp only [Option.map_some']
    congr 2
    omega
  · rw [intChars, if_neg hn]
    rcases hnc : natChars n.toNat with _ | ⟨c, cs⟩
    · exact absurd hnc (natChars_ne_nil _)
    · have hc : isDigitC c = true := by
        apply natChars_all_digits n.toNat
        rw [hnc]
        simp
      rw [List.cons_append, parseIntTok, if_neg (digit_ne_minus hc), ← List.cons_append,
        ← hnc, parseNatTok_natChars n.toNat hrest]
      simp only [Option.map_some']
      congr 2
      omega

theorem parseStrBody_quote (fuel : Nat) (cs : List Char) :
    parseStrBody (fuel + 1) ('"' :: cs) = some ([], cs) := by
  rw [parseStrBody, if_pos rfl]

theorem parseStrBody_bs {cs cs2 : List Char} {ch : Char} (fuel : Nat)
    (hu : unescape cs = some (ch, cs2)) :
    parseStrBody (fuel + 1) ('\\' :: cs) =
      (parseStrBody fuel cs2).map (fun p => (ch :: p.1, p.2)) := by
  rw [parseStrBody]
  rw [if_neg (show ¬('\\' : Char) = '"' by decide), if_pos rfl, hu]

theorem parseStrBody_lit {c : Char} (fuel : Nat) (cs : List Char)
    (h1 : ¬c = '"') (h2 : ¬c = '\\') (h3 : 32 ≤ c.toNat) :
    parseStrBody (fuel + 1) (c :: cs) =
      (parseStrBody fuel cs).map (fun p => (c :: p.1, p.2)) := by
  rw [parseStrBody, if_neg h1, if_neg h2, if_pos h3]

theorem unescape_short (e ch : Char) (hne : ¬e = 'u') (he : escapeOf e = some ch)
    (cs2 : List Char) : unescape (e :: cs2) = some (ch, cs2) := by
  rw [unescape, if_neg hne, he]

theorem unescape_u (a b c d : Char) (n : Nat) (rest : List Char)
    (hq : hexQuad a b c d = some n)
    (hs1 : ¬(55296 ≤ n ∧ n ≤ 56319)) (hs2 : ¬(56320 ≤ n ∧ n ≤ 57343)) :
    unescape ('u' :: a :: b :: c :: d :: rest) = some (Char.ofNat n, rest) := by
  rw [unescape, if_pos rfl, unescapeU]
  simp only [hq, hs1, hs2, if_false]

theorem unescape_surr (a b c d g1 g2 g3 g4 : Char) (n m : Nat) (rest : List Char)
    (hqh : hexQuad a b c d = some n) (hql : hexQuad g1 g2 g3 g4 = some m)
    (hhi : 55296 ≤ n ∧ n ≤ 56319) (hlo : 56320 ≤ m ∧ m ≤ 57343) :
    unescape ('u' :: a :: b :: c :: d :: '\\' :: 'u' :: g1 :: g2 :: g3 :: g4 :: rest) =
      some (Char.ofNat (65536 + (n - 55296) * 1024 + (m - 56320)), rest) := by
  rw [unescape, if_pos rfl, unescapeU]
  simp only [hqh, hql, if_pos hhi, if_pos hlo]
  simp [hhi, hlo]

theorem parseStrBody_escChar (c : Char) {fuel : Nat} {t ds r : List Char}
    (h : parseStrBody fuel t = some (ds, r)) :
    parseStrBody (fuel + 1) (escChar c ++ t) = some (c :: ds, r) := by
  by_cases h1 : c = '"'
  · subst h1
    have hu : unescape ('"' :: t) = some ('"', t) :=
      unescape_short '"' '"' (by decide) (by decide) t
    rw [show escChar '"' ++ t = '\\' :: '"' :: t from rfl, parseStrBody_bs fuel hu, h]
    rfl
  by_cases h2 : c = '\\'
  · subst h2
    have hu : unescape ('\\' :: t) = some ('\\', t) :=
      unescape_short '\\' '\\' (by decide) (by decide) t
    rw [show escChar '\\' ++ t = '\\' :: '\\' :: t from rfl, parseStrBody_bs fuel hu, h]
    rfl
  by_cases h3 : c = '\n'
  · subst h3
    have hu : unescape ('n' :: t) = some ('\n', t) :=
      unescape_short 'n' '\n' (by decide) (by decide) t
    rw [show escChar '\n' ++ t = '\\' :: 'n' :: t from rfl, parseStrBody_bs fuel hu, h]
    rfl
  by_cases h4 : c = '\r'
  · subst h4
    have hu : unescape ('r' :: t) = some ('\r', t) :=
      unescape_short 'r' '\r' (by decide) (by decide) t
    rw [show escChar '\r' ++ t = '\\' :: 'r' :: t from rfl, parseStrBody_bs fuel hu, h]
    rfl
  by_cases h5 : c = '\t'
  · subst h5
    have hu : unescape ('t' :: t) = some ('\t', t) :=
      unescape_short 't' '\t' (by decide) (by decide) t
    rw [show escChar '\t' ++ t = '\\' :: 't' :: t from rfl, parseStrBody_bs fuel hu, h]
    rfl
  by_cases h6 : c.toNat = 8
  · have hc : Char.ofNat 8 = c := by
      rw [← h6, Char.ofNat_toNat]
    have hu : unescape ('b' :: t) = some (Char.ofNat 8, t) :=
      unescape_short 'b' (Char.ofNat 8) (by decide) (by decide) t
    rw [escChar, if_neg h1, if_neg h2, if_neg h3, if_neg h4, if_neg h5, if_pos h6,
      List.cons_append, List.cons_append, List.nil_append, parseStrBody_bs fuel hu, h, hc]
    rfl
  by_cases h7 : c.toNat = 12
  · have hc : Char.ofNat 12 = c := by
      rw [← h7, Char.ofNat_toNat]
    have hu : unescape ('f' :: t) = some (Char.ofNat 12, t) :=
      unescape_short 'f' (Char.ofNat 12) (by decide) (by decide) t
    rw [escChar, if_neg h1, if_neg h2, if_neg h3, if_neg h4, if_neg h5, if_neg h6, if_pos h7,
      List.cons_append, List.cons_append, List.nil_append, parseStrBody_bs fuel hu, h, hc]
    rfl
  by_cases h8 : c.toNat < 32
  · have hu := unescape_u _ _ _ _ c.toNat t (hexQuad_hex4 (show c.toNat < 65536 by omega))
      (by omega) (by omega)
    rw [escChar, if_neg h1, if_neg h2, if_neg h3, if_neg h4, if_neg h5, if_neg h6,
      if_neg h7, if_pos h8, hex4]
    simp only [List.cons_append, List.nil_append]
    rw [parseStrBody_bs fuel hu, h, Char.ofNat_toNat]
    rfl
  by_cases h9 : c.toNat ≤ 126
  · rw [escChar, if_neg h1, if_neg h2, if_neg h3, if_neg h4, if_neg h5, if_neg h6,
      if_neg h7, if_neg h8, if_pos h9, List.singleton_append,
      parseStrBody_lit fuel t h1 h2 (by omega), h]
    rfl
  by_cases h10 : c.toNat < 65536
  · have hs1 : ¬(55296 ≤ c.toNat ∧ c.toNat ≤ 56319) := by
      rcases char_isValid c with hval | hval <;> omega
    have hs2 : ¬(56320 ≤ c.toNat ∧ c.toNat ≤ 57343) := by
      rcases char_isValid c with hval | hval <;> omega
    have hu := unescape_u _ _ _ _ c.toNat t (hexQuad_hex4 h10) hs1 hs2
    rw [escChar, if_neg h1, if_neg h2, if_neg h3, if_neg h4, if_neg h5, if_neg h6,
      if_neg h7, if_neg h8, if_neg h9, if_pos h10, hex4]
    simp only [List.cons_append, List.nil_append]
    rw [parseStrBody_bs fuel hu, h, Char.ofNat_toNat]
    rfl
  · have hb : c.toNat < 1114112 := by
      rcases char_isValid c with hval | hval <;> omega
    have hqh := hexQuad_hex4 (show 55296 + (c.toNat - 65536) / 1024 < 65536 by omega)
    have hql := hexQuad_hex4 (show 56320 + (c.toNat - 65536) % 1024 < 65536 by omega)
    have hu := unescape_surr _ _ _ _ _ _ _ _ _ _ t hqh hql (by omega) (by omega)
    have harith : 65536 + (55296 + (c.toNat - 65536) / 1024 - 55296) * 1024 +
        (56320 + (c.toNat - 65536) % 1024 - 56320) = c.toNat := by omega
    rw [escChar, if_neg h1, if_neg h2, if_neg h3, if_neg h4, if_neg h5, if_neg h6,
      if_neg h7, if_neg h8, if_neg h9, if_neg h10, hex4, hex4]
    simp only [List.cons_append, List.append_assoc, List.nil_append]
    rw [parseStrBody_bs fuel hu, h, harith, Char.ofNat_toNat]
    rfl

theorem parseStrBody_escList (s : List Char) :
    ∀ fuel : Nat, s.length + 1 ≤ fuel → ∀ rest : List Char,
      parseStrBody fuel ((s.map escChar).flatten ++ '"' :: rest) = some (s, rest) := by
  induction s with
  | nil =>
    intro fuel hf rest
    obtain ⟨f, rfl⟩ : ∃ f, fuel = f + 1 := ⟨fuel - 1, by omega⟩
    simp [parseStrBody]
  | cons c cs ih =>
    intro fuel hf rest
    obtain ⟨f, rfl⟩ : ∃ f, fuel = f + 1 := ⟨fuel - 1, by omega⟩
    rw [List.map_cons, List.flatten_cons, List.append_assoc]
    refine parseStrBody_escChar c (ih f ?_ rest)
    simp only [List.length_cons] at hf
    omega

theorem escChar_length_pos (c : Char) : 1 ≤ (escChar c).length := by
  rw [escChar]
  repeat' split
  all_goals simp

theorem escList_length_ge (s : List Char) :
    s.length ≤ ((s.map escChar).flatten).length := by
  induction s with
  | nil => simp
  | cons c cs ih =>
    rw [List.map_cons, List.flatten_cons, List.length_append]
    simp only [List.length_cons]
    have := escChar_length_pos c
    omega

theorem parseStr_escString (s : String) (rest : List Char) :
    parseStr ((s.data.map escChar).flatten ++ '"' :: rest) = some (s.data, rest) := by
  apply parseStrBody_escList
  rw [List.length_append, List.length_cons]
  have := escList_length_ge s.data
  omega

mutual

/-- Fuel that certainly suffices for `parseVal` on the dump of `v`. -/
def fuelFor : Json → Nat
  | .null => 1
  | .bool _ => 1
  | .int _ => 1
  | .str _ => 1
  | .arr xs => 2 + fuelForItems xs
  | .obj kvs => 2 + fuelForMembers kvs

/-- Fuel that suffices for `parseItems` on the dump of `xs`. -/
def fuelForItems : List Json → Nat
  | [] => 1
  | x :: xs => 1 + fuelFor x + fuelForItems xs

/-- Fuel that suffices for `parseMembers` on the dump of `kvs`. -/
def fuelForMembers : List (String × Json) → Nat
  | [] => 1
  | (_, v) :: kvs => 1 + fuelFor v + fuelForMembers kvs

end

/-- The first character, if any, is not a decimal digit (so a number token
ending right before `cs` is parsed maximally). -/
def noDigit : List Char → Bool
  | [] => true
  | c :: _ => !isDigitC c

theorem skipWs_idem (cs : List Char) : skipWs (skipWs cs) = skipWs cs := by
  induction cs with
  | nil => rfl
  | cons c cs ih =>
    rw [skipWs]
    split
    · exact ih
    · next h => exact skipWs_cons_of_not_ws (by simpa using h) cs

theorem parseVal_congr_skip {z1 z2 : List Char} (fuel : Nat) (h : skipWs z1 = skipWs z2) :
    parseVal fuel z1 = parseVal fuel z2 := by
  cases fuel with
  | zero => rfl
  | succ f =>
    simp only [parseVal]
    rw [h]

theorem parseVal_skipWs (fuel : Nat) (z : List Char) :
    parseVal fuel (skipWs z) = parseVal fuel z :=
  parseVal_congr_skip fuel (skipWs_idem z)

theorem parseItems_skipWs (fuel : Nat) (z : List Char) :
    parseItems fuel (skipWs z) = parseItems fuel z := by
  cases fuel with
  | zero => rfl
  | succ f =>
    simp only [parseItems]
    rw [parseVal_skipWs]

theorem parseMembers_congr_skip {z1 z2 : List Char} (fuel : Nat)
    (h : skipWs z1 = skipWs z2) :
    parseMembers fuel z1 = parseMembers fuel z2 := by
  cases fuel with
  | zero => rfl
  | succ f =>
    simp only [parseMembers]
    rw [h]

theorem parseMembers_skipWs (fuel : Nat) (z : List Char) :
    parseMembers fuel (skipWs z) = parseMembers fuel z :=
  parseMembers_congr_skip fuel (skipWs_idem z)

theorem skipWs_nl_indent (k : Nat) (z : List Char) :
    skipWs ('\n' :: (List.replicate k ' ' ++ z)) = skipWs z := by
  rw [skipWs_newline, skipWs_replicate_space]

/-- The dispatch of `parseVal` after whitespace has been skipped (the same
if-chain the body of `parseVal` runs on `skipWs cs`). -/
def parseValAfterWs (fuel : Nat) : List Char → Option (Json × List Char)
  | [] => none
  | c :: cs1 =>
    if c = '"' then
      (parseStr cs1).map (fun p => (Json.str (String.mk p.1), p.2))
    else if c = '[' then
      match skipWs cs1 with
      | [] => none
      | d :: cs2 =>
        if d = ']' then some (Json.arr [], cs2)
        else (parseItems fuel (d :: cs2)).map (fun p => (Json.arr p.1, p.2))
    else if c = '\x7b' then
      match skipWs cs1 with
      | [] => none
      | d :: cs2 =>
        if d = '\x7d' then some (Json.obj [], cs2)
        else (parseMembers fuel (d :: cs2)).map (fun p => (Json.obj p.1, p.2))
    else if c = 't' then parseTrueTail cs1
    else if c = 'f' then parseFalseTail cs1
    else if c = 'n' then parseNullTail cs1
    else if c = '-' || isDigitC c then
      (parseIntTok (c :: cs1)).map (fun p => (Json.int p.1, p.2))
    else none

theorem parseVal_succ_eq (fuel : Nat) (cs : List Char) :
    parseVal (fuel + 1) cs = parseValAfterWs fuel (skipWs cs) := by
  rw [parseVal]
  rcases skipWs cs with _ | ⟨c, cs1⟩
  · rfl
  · rfl

theorem string_mk_data (s : String) : String.mk s.data = s := rfl

theorem noDigit_cases {rest : List Char} (h : noDigit rest = true) :
    rest = [] ∨ ∃ d tl, rest = d :: tl ∧ isDigitC d = false := by
  cases rest with
  | nil => exact Or.inl rfl
  | cons d tl =>
    refine Or.inr ⟨d, tl, rfl, ?_⟩
    simpa [noDigit] using h

theorem digit_not_special {c : Char} (h : isDigitC c = true) :
    ¬c = '"' ∧ ¬c = '[' ∧ ¬c = '\x7b' ∧ ¬c = 't' ∧ ¬c = 'f' ∧ ¬c = 'n' ∧
      isWsChar c = false ∧ ¬c = ']' ∧ ¬c = '\x7d' ∧ ¬c = ',' ∧ ¬c = ':' := by
  have hv : 48 ≤ c.toNat ∧ c.toNat ≤ 57 := isDigitC_iff.mp h
  have hne : ∀ d : Char, d.toNat < 48 ∨ 57 < d.toNat → ¬c = d := by
    intro d hd he
    rw [he] at hv
    omega
  refine ⟨hne _ (by decide), hne _ (by decide), hne _ (by decide), hne _ (by decide),
    hne _ (by decide), hne _ (by decide), ?_, hne _ (by decide), hne _ (by decide),
    hne _ (by decide), hne _ (by decide)⟩
  cases hw : isWsChar c
  · rfl
  · exfalso
    have : ((c = ' ' ∨ c = '\t') ∨ c = '\n') ∨ c = '\r' := by
      simpa [isWsChar] using hw
    rcases this with ((hc | hc) | hc) | hc <;> rw [hc] at hv <;> revert hv <;> decide

theorem natChars_head (n : Nat) :
    ∃ c cs, natChars n = c :: cs ∧ isDigitC c = true := by
  rcases hnc : natChars n with _ | ⟨c, cs⟩
  · exact absurd hnc (natChars_ne_nil n)
  · refine ⟨c, cs, rfl, ?_⟩
    apply natChars_all_digits n
    rw [hnc]
    simp

/-- Every serialized value starts with a character that is not whitespace
and not one of the closing delimiters or separators. -/
theorem dumpVal_head (v : Json) (lvl : Nat) :
    ∃ c cs, dumpVal v lvl = c :: cs ∧ isWsChar c = false ∧ ¬c = ']' ∧ ¬c = '\x7d' ∧
      ¬c = ',' ∧ ¬c = ':' := by
  cases v with
  | null => exact ⟨'n', _, rfl, by decide, by decide, by decide, by decide, by decide⟩
  | bool b =>
    cases b with
    | true => exact ⟨'t', _, rfl, by decide, by decide, by decide, by decide, by decide⟩
    | false => exact ⟨'f', _, rfl, by decide, by decide, by decide, by decide, by decide⟩
  | int n =>
    rw [dumpVal, intChars]
    split
    · exact ⟨'-', _, rfl, by decide, by decide, by decide, by decide, by decide⟩
    · obtain ⟨c, cs, hnc, hc⟩ := natChars_head n.toNat
      rw [hnc]
      obtain ⟨_, _, _, _, _, _, hws, hrb, hob, hcm, hco⟩ := digit_not_special hc
      exact ⟨c, cs, rfl, hws, hrb, hob, hcm, hco⟩
  | str s =>
    exact ⟨'"', _, rfl, by decide, by decide, by decide, by decide, by decide⟩
  | arr xs =>
    cases xs with
    | nil => exact ⟨'[', _, rfl, by decide, by decide, by decide, by decide, by decide⟩
    | cons x xs =>
      exact ⟨'[', _, rfl, by decide, by decide, by decide, by decide, by decide⟩
  | obj kvs =>
    cases kvs with
    | nil => exact ⟨'\x7b', _, rfl, by decide, by decide, by decide, by decide, by decide⟩
    | cons kv kvs =>
      exact ⟨'\x7b', _, rfl, by decide, by decide, by decide, by decide, by decide⟩

/-- What follows the dump of the first array item: either the closing
context or a comma and the remaining items. -/
def itemsTail : List Json → Nat → List Char → List Char
  | [], _, τ => τ
  | y :: ys, lvl, τ => ',' :: (dumpItems (y :: ys) lvl ++ τ)

/-- What follows the dump of the first object member. -/
def membersTail : List (String × Json) → Nat → List Char → List Char
  | [], _, τ => τ
  | m :: ms, lvl, τ => ',' :: (dumpMembers (m :: ms) lvl ++ τ)

theorem skipWs_dumpItems (x : Json) (xs : List Json) (lvl : Nat) (τ : List Char) :
    skipWs (dumpItems (x :: xs) lvl ++ τ) = dumpVal x lvl ++ itemsTail xs lvl τ := by
  obtain ⟨c, cs, hd, hws, _, _, _, _⟩ := dumpVal_head x lvl
  cases xs with
  | nil =>
    rw [dumpItems, itemsTail]
    simp only [List.cons_append, List.append_assoc]
    rw [skipWs_nl_indent, hd, List.cons_append, skipWs_cons_of_not_ws hws]
  | cons y ys =>
    rw [dumpItems, itemsTail]
    simp only [List.cons_append, List.append_assoc]
    rw [skipWs_nl_indent, hd, List.cons_append, skipWs_cons_of_not_ws hws]

theorem skipWs_dumpMembers (k : String) (v : Json) (kvs : List (String × Json))
    (lvl : Nat) (τ : List Char) :
    skipWs (dumpMembers ((k, v) :: kvs) lvl ++ τ) =
      '"' :: ((k.data.map escChar).flatten ++
        ('"' :: (':' :: (' ' :: (dumpVal v lvl ++ membersTail kvs lvl τ))))) := by
  cases kvs with
  | nil =>
    rw [dumpMembers, membersTail, escString]
    simp only [List.cons_append, List.append_assoc, List.singleton_append, List.nil_append]
    rw [skipWs_nl_indent, skipWs_cons_of_not_ws (by decide)]
  | cons m ms =>
    rw [dumpMembers, membersTail, escString]
    simp only [List.cons_append, List.append_assoc, List.singleton_append, List.nil_append]
    rw [skipWs_nl_indent, skipWs_cons_of_not_ws (by decide)]

theorem skipWs_dumpMembers2 (kv : String × Json) (kvs : List (String × Json))
    (lvl : Nat) (τ : List Char) :
    skipWs (dumpMembers (kv :: kvs) lvl ++ τ) =
      '"' :: ((kv.1.data.map escChar).flatten ++
        ('"' :: (':' :: (' ' :: (dumpVal kv.2 lvl ++ membersTail kvs lvl τ))))) := by
  obtain ⟨k, v⟩ := kv
  exact skipWs_dumpMembers k v kvs lvl τ

theorem parseValAfterWs_arr (f : Nat) {cs1 : List Char} {d : Char} {cs2 : List Char}
    (hws : skipWs cs1 = d :: cs2) (hd : ¬d = ']') :
    parseValAfterWs f ('[' :: cs1) =
      (parseItems f cs1).map (fun p => (Json.arr p.1, p.2)) := by
  rw [parseValAfterWs, if_neg (by decide), if_pos rfl]
  simp only [hws]
  rw [if_neg hd, ← hws, parseItems_skipWs]

theorem parseValAfterWs_obj (f : Nat) {cs1 : List Char} {d : Char} {cs2 : List Char}
    (hws : skipWs cs1 = d :: cs2) (hd : ¬d = '\x7d') :
    parseValAfterWs f ('\x7b' :: cs1) =
      (parseMembers f cs1).map (fun p => (Json.obj p.1, p.2)) := by
  rw [parseValAfterWs, if_neg (by decide), if_neg (by decide), if_pos rfl]
  simp only [hws]
  rw [if_neg hd, ← hws, parseMembers_skipWs]

theorem parseValAfterWs_int (f : Nat) {c : Char} (cs1 : List Char)
    (hdig : c = '-' ∨ isDigitC c = true) :
    parseValAfterWs f (c :: cs1) =
      (parseIntTok (c :: cs1)).map (fun p => (Json.int p.1, p.2)) := by
  rcases hdig with hc | hc
  · subst hc
    rw [parseValAfterWs]
    rfl
  · obtain ⟨hq, hb, hob, ht, hf2, hn, _, _, _, _, _⟩ := digit_not_special hc
    rw [parseValAfterWs, if_neg hq, if_neg hb, if_neg hob, if_neg ht, if_neg hf2,
      if_neg hn, if_pos (by rw [hc]; simp)]

theorem parseItems_step (f : Nat) {cs : List Char} {v : Json} {rest : List Char}
    (hpv : parseVal f cs = some (v, rest)) :
    parseItems (f + 1) cs =
      (match skipWs rest with
      | [] => none
      | d :: rest2 =>
        if d = ',' then (parseItems f rest2).map (fun p => (v :: p.1, p.2))
        else if d = ']' then some ([v], rest2)
        else none) := by
  rw [parseItems]
  simp only [hpv]

/-- The dispatch of `parseMembers` after whitespace has been skipped. -/
def parseMembersAfterWs (fuel : Nat) : List Char → Option (List (String × Json) × List Char)
  | [] => none
  | q :: cs1 =>
    if q = '"' then
      match parseStr cs1 with
      | none => none
      | some (k, rest) =>
        match skipWs rest with
        | [] => none
        | o :: rest2 =>
          if o = ':' then
            match parseVal fuel rest2 with
            | none => none
            | some (v, rest3) =>
              match skipWs rest3 with
              | [] => none
              | d :: rest4 =>
                if d = ',' then
                  (parseMembers fuel rest4).map (fun p => ((String.mk k, v) :: p.1, p.2))
                else if d = '\x7d' then some ([(String.mk k, v)], rest4)
                else none
          else none
    else none

theorem parseMembers_succ_eq (fuel : Nat) (cs : List Char) :
    parseMembers (fuel + 1) cs = parseMembersAfterWs fuel (skipWs cs) := by
  rw [parseMembers]
  rcases skipWs cs with _ | ⟨c, cs1⟩
  · rfl
  · rfl

theorem snd_sizeOf_lt (p : String × Json) : sizeOf p.2 < sizeOf p := by
  obtain ⟨a, b⟩ := p
  simp only [Prod.mk.sizeOf_spec]
  omega

theorem fuelFor_pos (v : Json) : 1 ≤ fuelFor v := by
  cases v <;> simp only [fuelFor] <;> omega

mutual

theorem parseVal_dump (v : Json) (lvl fuel : Nat) (rest : List Char)
    (hf : fuelFor v ≤ fuel) (hr : noDigit rest = true) :
    parseVal fuel (dumpVal v lvl ++ rest) = some (v, rest) := by
  obtain ⟨f, rfl⟩ : ∃ f, fuel = f + 1 := ⟨fuel - 1, by have := fuelFor_pos v; omega⟩
  cases v with
  | null =>
    simp only [dumpVal, List.cons_append, List.nil_append]
    rw [parseVal_succ_eq, skipWs_cons_of_not_ws (by decide)]
    rfl
  | bool b =>
    cases b with
    | true =>
      simp only [dumpVal, List.cons_append, List.nil_append]
      rw [parseVal_succ_eq, skipWs_cons_of_not_ws (by decide)]
      rfl
    | false =>
      simp only [dumpVal, List.cons_append, List.nil_append]
      rw [parseVal_succ_eq, skipWs_cons_of_not_ws (by decide)]
      rfl
  | int n =>
    rw [dumpVal]
    by_cases hn : n < 0
    · rw [intChars, if_pos hn, List.cons_append, parseVal_succ_eq,
        skipWs_cons_of_not_ws (by decide), parseValAfterWs_int f _ (Or.inl rfl)]
      have hre : '-' :: (natChars n.natAbs ++ rest) = intChars n ++ rest := by
        rw [intChars, if_pos hn, List.cons_append]
      rw [hre, parseIntTok_intChars n (noDigit_cases hr)]
      rfl
    · rw [intChars, if_neg hn]
      obtain ⟨c, cs, hnc, hc⟩ := natChars_head n.toNat
      rw [hnc, List.cons_append, parseVal_succ_eq,
        skipWs_cons_of_not_ws (digit_not_special hc).2.2.2.2.2.2.1,
        parseValAfterWs_int f _ (Or.inr hc)]
      have hre : c :: (cs ++ rest) = intChars n ++ rest := by
        rw [intChars, if_neg hn, hnc, List.cons_append]
      rw [hre, parseIntTok_intChars n (noDigit_cases hr)]
      rfl
  | str s =>
    simp only [dumpVal, escString, List.cons_append, List.append_assoc,
      List.singleton_append]
    rw [parseVal_succ_eq, skipWs_cons_of_not_ws (by decide), parseValAfterWs, if_pos rfl,
      parseStr_escString]
    rfl
  | arr xs =>
    cases xs with
    | nil =>
      simp only [dumpVal, List.cons_append, List.nil_append]
      rw [parseVal_succ_eq, skipWs_cons_of_not_ws (by decide)]
      rfl
    | cons x xs =>
      rw [dumpVal]
      simp only [List.cons_append, List.append_assoc, List.nil_append]
      rw [parseVal_succ_eq, skipWs_cons_of_not_ws (by decide)]
      obtain ⟨c0, cs0, hd, hws0, hrb, hob, hcm, hco⟩ := dumpVal_head x (lvl + 1)
      have hsk : skipWs (dumpItems (x :: xs) (lvl + 1) ++
          ('\n' :: (List.replicate (2 * lvl) ' ' ++ (']' :: rest)))) =
          c0 :: (cs0 ++ itemsTail xs (lvl + 1)
            ('\n' :: (List.replicate (2 * lvl) ' ' ++ (']' :: rest)))) := by
        rw [skipWs_dumpItems, hd, List.cons_append]
      rw [parseValAfterWs_arr f hsk hrb,
        parseItems_dump x xs (lvl + 1) f (2 * lvl) rest
          (by simp only [fuelFor] at hf; omega)]
      rfl
  | obj kvs =>
    cases kvs with
    | nil =>
      simp only [dumpVal, List.cons_append, List.nil_append]
      rw [parseVal_succ_eq, skipWs_cons_of_not_ws (by decide)]
      rfl
    | cons kv kvs =>
      rw [dumpVal]
      simp only [List.cons_append, List.append_assoc, List.nil_append]
      rw [parseVal_succ_eq, skipWs_cons_of_not_ws (by decide)]
      have hsk := skipWs_dumpMembers2 kv kvs (lvl + 1)
        ('\n' :: (List.replicate (2 * lvl) ' ' ++ ('\x7d' :: rest)))
      rw [parseValAfterWs_obj f hsk (by decide),
        parseMembers_dump kv kvs (lvl + 1) f (2 * lvl) rest
          (by simp only [fuelFor] at hf; omega)]
      rfl
  termination_by sizeOf v
  decreasing_by
    all_goals subst_vars
    all_goals try simp only [Json.arr.sizeOf_spec, Json.obj.sizeOf_spec, List.cons.sizeOf_spec,
      Prod.mk.sizeOf_spec, List.nil.sizeOf_spec]
    all_goals first
      | omega
      | (have h9 := snd_sizeOf_lt kv; omega)

theorem parseItems_dump (x : Json) (xs : List Json) (lvl fuel k : Nat) (rest : List Char)
    (hf : fuelForItems (x :: xs) ≤ fuel) :
    parseItems fuel (dumpItems (x :: xs) lvl ++
      ('\n' :: (List.replicate k ' ' ++ (']' :: rest)))) = some (x :: xs, rest) := by
  obtain ⟨f, rfl⟩ : ∃ f, fuel = f + 1 :=
    ⟨fuel - 1, by simp only [fuelForItems] at hf; omega⟩
  cases xs with
  | nil =>
    have hpv : parseVal f (dumpItems [x] lvl ++
        ('\n' :: (List.replicate k ' ' ++ (']' :: rest)))) =
        some (x, '\n' :: (List.replicate k ' ' ++ (']' :: rest))) := by
      rw [← parseVal_skipWs f _, skipWs_dumpItems, itemsTail]
      exact parseVal_dump x lvl f _ (by simp only [fuelForItems] at hf; omega) rfl
    rw [parseItems_step f hpv]
    have hsw : skipWs ('\n' :: (List.replicate k ' ' ++ (']' :: rest))) = ']' :: rest := by
      rw [skipWs_nl_indent]
      exact skipWs_cons_of_not_ws (by decide) rest
    simp only [hsw]
    rfl
  | cons y ys =>
    have hpv : parseVal f (dumpItems (x :: y :: ys) lvl ++
        ('\n' :: (List.replicate k ' ' ++ (']' :: rest)))) =
        some (x, ',' :: (dumpItems (y :: ys) lvl ++
          ('\n' :: (List.replicate k ' ' ++ (']' :: rest))))) := by
      rw [← parseVal_skipWs f _, skipWs_dumpItems, itemsTail]
      exact parseVal_dump x lvl f _ (by simp only [fuelForItems] at hf; omega) rfl
    rw [parseItems_step f hpv]
    have hsw : skipWs (',' :: (dumpItems (y :: ys) lvl ++
        ('\n' :: (List.replicate k ' ' ++ (']' :: rest))))) =
        ',' :: (dumpItems (y :: ys) lvl ++
          ('\n' :: (List.replicate k ' ' ++ (']' :: rest)))) :=
      skipWs_cons_of_not_ws (by decide) _
    simp only [hsw, if_true]
    rw [parseItems_dump y ys lvl f k rest (by simp only [fuelForItems] at hf ⊢; omega)]
    rfl
  termination_by 1 + sizeOf x + sizeOf xs
  decreasing_by
    all_goals subst_vars
    all_goals try simp only [Json.arr.sizeOf_spec, Json.obj.sizeOf_spec, List.cons.sizeOf_spec,
      Prod.mk.sizeOf_spec, List.nil.sizeOf_spec]
    all_goals first
      | omega
      | (have h9 := snd_sizeOf_lt kv; omega)

theorem parseMembers_dump (kv : String × Json) (kvs : List (String × Json))
    (lvl fuel ki : Nat) (rest : List Char)
    (hf : fuelForMembers (kv :: kvs) ≤ fuel) :
    parseMembers fuel (dumpMembers (kv :: kvs) lvl ++
      ('\n' :: (List.replicate ki ' ' ++ ('\x7d' :: rest)))) =
      some (kv :: kvs, rest) := by
  have hfm : 1 + fuelFor kv.2 + fuelForMembers kvs ≤ fuel := by
    obtain ⟨k, v⟩ := kv
    simpa only [fuelForMembers] using hf
  obtain ⟨f, rfl⟩ : ∃ f, fuel = f + 1 := ⟨fuel - 1, by omega⟩
  rw [parseMembers_succ_eq, skipWs_dumpMembers2, parseMembersAfterWs, if_pos rfl]
  simp only [parseStr_escString]
  have hsw1 : skipWs (':' :: (' ' :: (dumpVal kv.2 lvl ++ membersTail kvs lvl
      ('\n' :: (List.replicate ki ' ' ++ ('\x7d' :: rest)))))) =
      ':' :: (' ' :: (dumpVal kv.2 lvl ++ membersTail kvs lvl
        ('\n' :: (List.replicate ki ' ' ++ ('\x7d' :: rest))))) :=
    skipWs_cons_of_not_ws (by decide) _
  simp only [hsw1, if_true]
  have hpv : parseVal f (' ' :: (dumpVal kv.2 lvl ++ membersTail kvs lvl
      ('\n' :: (List.replicate ki ' ' ++ ('\x7d' :: rest))))) =
      some (kv.2, membersTail kvs lvl
        ('\n' :: (List.replicate ki ' ' ++ ('\x7d' :: rest)))) := by
    rw [parseVal_congr_skip f (skipWs_cons_of_ws (by decide) _)]
    refine parseVal_dump kv.2 lvl f _ (by omega) ?_
    cases kvs with
    | nil => rfl
    | cons m ms => rfl
  simp only [hpv]
  cases kvs with
  | nil =>
    simp only [membersTail]
    have hsw2 : skipWs ('\n' :: (List.replicate ki ' ' ++ ('\x7d' :: rest))) =
        '\x7d' :: rest := by
      rw [skipWs_nl_indent]
      exact skipWs_cons_of_not_ws (by decide) rest
    simp only [hsw2]
    rfl
  | cons m ms =>
    simp only [membersTail]
    have hsw2 : skipWs (',' :: (dumpMembers (m :: ms) lvl ++
        ('\n' :: (List.replicate ki ' ' ++ ('\x7d' :: rest))))) =
        ',' :: (dumpMembers (m :: ms) lvl ++
          ('\n' :: (List.replicate ki ' ' ++ ('\x7d' :: rest)))) :=
      skipWs_cons_of_not_ws (by decide) _
    simp only [hsw2, if_true]
    have hrec : fuelForMembers (m :: ms) ≤ f := by
      have : 1 ≤ fuelFor kv.2 := fuelFor_pos kv.2
      omega
    rw [parseMembers_dump m ms lvl f ki rest hrec]
    rfl
  termination_by 1 + sizeOf kv + sizeOf kvs
  decreasing_by
    all_goals subst_vars
    all_goals try simp only [Json.arr.sizeOf_spec, Json.obj.sizeOf_spec, List.cons.sizeOf_spec,
      Prod.mk.sizeOf_spec, List.nil.sizeOf_spec]
    all_goals first
      | omega
      | (have h9 := snd_sizeOf_lt kv; omega)

end

mutual

theorem fuelFor_le_len (v : Json) (lvl : Nat) :
    fuelFor v ≤ 2 * (dumpVal v lvl).length + 2 := by
  cases v with
  | null => simp [fuelFor, dumpVal]
  | bool b => cases b <;> simp [fuelFor, dumpVal]
  | int n => simp [fuelFor]
  | str s => simp [fuelFor]
  | arr xs =>
    cases xs with
    | nil => simp [fuelFor, fuelForItems, dumpVal]
    | cons x xs =>
      have := fuelForItems_le_len x xs (lvl + 1)
      simp only [fuelFor, dumpVal, List.length_append, List.length_cons,
        List.length_replicate]
      omega
  | obj kvs =>
    cases kvs with
    | nil => simp [fuelFor, fuelForMembers, dumpVal]
    | cons kv kvs =>
      have := fuelForMembers_le_len kv kvs (lvl + 1)
      simp only [fuelFor, dumpVal, List.length_append, List.length_cons,
        List.length_replicate]
      omega
  termination_by sizeOf v
  decreasing_by
    all_goals subst_vars
    all_goals try simp only [Json.arr.sizeOf_spec, Json.obj.sizeOf_spec,
      List.cons.sizeOf_spec, Prod.mk.sizeOf_spec, List.nil.sizeOf_spec]
    all_goals omega

theorem fuelForItems_le_len (x : Json) (xs : List Json) (lvl : Nat) :
    fuelForItems (x :: xs) ≤ 2 * (dumpItems (x :: xs) lvl).length + 2 := by
  cases xs with
  | nil =>
    have := fuelFor_le_len x lvl
    simp only [fuelForItems, dumpItems, List.length_append, List.length_cons,
      List.length_replicate]
    omega
  | cons y ys =>
    have h1 := fuelFor_le_len x lvl
    have h2 := fuelForItems_le_len y ys lvl
    simp only [fuelForItems, dumpItems, List.length_append, List.length_cons,
      List.length_replicate] at h2 ⊢
    omega
  termination_by 1 + sizeOf x + sizeOf xs
  decreasing_by
    all_goals subst_vars
    all_goals try simp only [Json.arr.sizeOf_spec, Json.obj.sizeOf_spec,
      List.cons.sizeOf_spec, Prod.mk.sizeOf_spec, List.nil.sizeOf_spec]
    all_goals omega

theorem fuelForMembers_le_len (kv : String × Json) (kvs : List (String × Json))
    (lvl : Nat) :
    fuelForMembers (kv :: kvs) ≤ 2 * (dumpMembers (kv :: kvs) lvl).length + 2 := by
  obtain ⟨k, v⟩ := kv
  cases kvs with
  | nil =>
    have := fuelFor_le_len v lvl
    simp only [fuelForMembers, dumpMembers, List.length_append, List.length_cons,
      List.length_replicate]
    omega
  | cons m ms =>
    have h1 := fuelFor_le_len v lvl
    have h2 := fuelForMembers_le_len m ms lvl
    simp only [fuelForMembers, dumpMembers, List.length_append, List.length_cons,
      List.length_replicate] at h2 ⊢
    omega
  termination_by 1 + sizeOf kv + sizeOf kvs
  decreasing_by
    all_goals subst_vars
    all_goals try simp only [Json.arr.sizeOf_spec, Json.obj.sizeOf_spec,
      List.cons.sizeOf_spec, Prod.mk.sizeOf_spec, List.nil.sizeOf_spec]
    all_goals omega

end

/-- Round-trip: `json.load` reads back exactly the value that
`json.dump(..., indent=2)` wrote. -/
theorem pyJsonLoads_dumpsIndent (v : Json) : pyJsonLoads (pyJsonDumpsIndent v) = some v := by
  rw [pyJsonLoads, pyJsonDumpsIndent]
  have hp : parseVal (2 * (String.mk (dumpVal v 0)).data.length + 2)
      (dumpVal v 0 ++ []) = some (v, []) :=
    parseVal_dump v 0 _ [] (by have := fuelFor_le_len v 0; simpa using this) rfl
  rw [List.append_nil] at hp
  simp only [hp]
  rfl

/-!
Part 2: the notification dispatcher itself.

`MailConfig` holds the Django settings the services read, `UserInfo` the
attributes of the `User` (and optional `FarmDetails`) rows that the
builders access, and `MailData` the `mail_data` dictionary each
`send_*` method constructs.  File-system effects are explicit: `FsState`
carries the queue-file content and two fault flags (read failure raises
`OSError`, write failure raises at `open(..., 'w')`, leaving the previous
content in place).
-/

/-- The Django settings consulted by the mail services. -/
structure MailConfig where
  enabled : Bool
  default_from_email : String
  site_url : Option String
  current_year : Int

/-- The user attributes the mail builders read.  `date_joined_fmt` is the
result of `user.date_joined.strftime('%B %d, %Y')`; `farm_name` is
`user.farmdetails.farm_name` when the related row exists. -/
structure UserInfo where
  full_name : String
  email : String
  date_joined_fmt : String
  farm_name : Option String

/-- The `mail_data` dictionary built by every `send_*` method.  Django
model objects appearing in a template context are represented by the JSON
object of the fields the template reads — no modeled operation inspects a
context beyond serializing it (Strategy C) or handing it to the rendering
oracle (Strategies A and B). -/
structure MailData where
  mail_type : Option String
  subject : String
  template_name : Option String
  context : Option Json
  recipient_email : String
  from_email : Option String
  message : Option String

/-- `settings.SITE_URL` with the production default used by
`mail_service_simple.py` and `mail_service_ultralight.py`. -/
def siteUrlProd (cfg : MailConfig) : String :=
  cfg.site_url.getD "https://smart-farm-yj5d.onrender.com"

/-- `settings.SITE_URL` with the development default used by
`mail_service.py`. -/
def siteUrlDev (cfg : MailConfig) : String :=
  cfg.site_url.getD "http://127.0.0.1:8000"

/-- The nested `user` entry of every context. -/
def userContext (u : UserInfo) : Json :=
  Json.obj [("full_name", Json.str u.full_name), ("email", Json.str u.email)]

/-- `mail_data` of `UltraLightMailService.send_welcome_email`. -/
def ultraWelcomeData (cfg : MailConfig) (u : UserInfo) : MailData where
  mail_type := some "welcome"
  subject := "Welcome to SmartFarm - Your Journey Begins!"
  template_name := some "emails/welcome_email.html"
  context := some (Json.obj [
    ("user", userContext u),
    ("full_name", Json.str u.full_name),
    ("email", Json.str u.email),
    ("registration_date", Json.str u.date_joined_fmt),
    ("farm_name", Json.str (u.farm_name.getD "Your Farm")),
    ("current_year", Json.int cfg.current_year),
    ("site_url", Json.str (siteUrlProd cfg))])
  recipient_email := u.email
  from_email := none
  message := none

/-- `mail_data` of `UltraLightMailService.send_farm_setup_reminder`. -/
def ultraReminderData (cfg : MailConfig) (u : UserInfo) : MailData where
  mail_type := some "farm_setup_reminder"
  subject := "Complete Your SmartFarm Profile"
  template_name := some "emails/farm_setup_reminder.html"
  context := some (Json.obj [
    ("user", userContext u),
    ("full_name", Json.str u.full_name),
    ("email", Json.str u.email),
    ("onboarding_url", Json.str (siteUrlProd cfg ++ "/onboarding/")),
    ("current_year", Json.int cfg.current_year),
    ("site_url", Json.str (siteUrlProd cfg))])
  recipient_email := u.email
  from_email := none
  message := none

/-- `alert_data.get('location', 'Your Farm')`: the modeled extraction of a
string `location` field (a non-string value rendered into the subject is
outside the modeled scope — none of the services write one). -/
def alertLocation (alert : Json) : String :=
  match alert with
  | Json.obj fields =>
    match (fields.find? (fun kv => kv.1 = "location")).map (fun kv => kv.2) with
    | some (Json.str s) => s
    | _ => "Your Farm"
  | _ => "Your Farm"

/-- `mail_data` of `UltraLightMailService.send_weather_alert`. -/
def ultraWeatherData (cfg : MailConfig) (u : UserInfo) (alert : Json) : MailData where
  mail_type := some "weather_alert"
  subject := "Weather Alert for " ++ alertLocation alert
  template_name := some "emails/weather_alert.html"
  context := some (Json.obj [
    ("user", userContext u),
    ("full_name", Json.str u.full_name),
    ("alert_data", alert),
    ("current_year", Json.int cfg.current_year),
    ("site_url", Json.str (siteUrlProd cfg))])
  recipient_email := u.email
  from_email := none
  message := none

/-- One record of the Strategy C queue file, with the exact fields
`_queue_email` writes. -/
structure QueuedEntry where
  timestamp : String
  subject : String
  template_name : Option String
  context : Json
  recipient_email : String
  from_email : String
  mail_type : String
  attempts : Nat
  deriving DecidableEq, Repr

/-- The `mail_entry` dictionary `_queue_email` appends
(`mail_service_ultralight.py` lines 43–52): timestamp from
`timezone.now().isoformat()`, defaults filled from the settings, and
`attempts` starting at `0`. -/
def mkQueuedEntry (cfg : MailConfig) (now : String) (md : MailData) : QueuedEntry where
  timestamp := now
  subject := md.subject
  template_name := md.template_name
  context := md.context.getD (Json.obj [])
  recipient_email := md.recipient_email
  from_email := md.from_email.getD cfg.default_from_email
  mail_type := md.mail_type.getD "unknown"
  attempts := 0

/-- JSON value of `null`-or-string fields. -/
def optStrJson : Option String → Json
  | none => Json.null
  | some s => Json.str s

/-- The JSON object serialized for a queue entry, fields in the order of
the source dictionary literal. -/
def entryToJson (e : QueuedEntry) : Json :=
  Json.obj [
    ("timestamp", Json.str e.timestamp),
    ("subject", Json.str e.subject),
    ("template_name", optStrJson e.template_name),
    ("context", e.context),
    ("recipient_email", Json.str e.recipient_email),
    ("from_email", Json.str e.from_email),
    ("mail_type", Json.str e.mail_type),
    ("attempts", Json.int e.attempts)]

/-- First value bound to a key of a JSON object (Python dicts cannot hold
duplicate keys). -/
def jLookup (fields : List (String × Json)) (k : String) : Option Json :=
  (fields.find? (fun kv => kv.1 = k)).map (fun kv => kv.2)

/-- Read a mandatory string field. -/
def jStr? : Option Json → Option String
  | some (Json.str s) => some s
  | _ => none

/-- Read a string-or-`null` field. -/
def jOptStr? : Option Json → Option (Option String)
  | some Json.null => some none
  | some (Json.str s) => some (some s)
  | _ => none

/-- Read a non-negative integer field. -/
def jNat? : Option Json → Option Nat
  | some (Json.int n) => if n < 0 then none else some n.toNat
  | _ => none

/-- Structural reading of a queue entry.  The management command accesses
entry fields duck-typed; entries written by `_queue_email` always have this
shape, and the drain claims quantify over such entries. -/
def entryFromJson (j : Json) : Option QueuedEntry :=
  match j with
  | Json.obj fields =>
    match jStr? (jLookup fields "timestamp"), jStr? (jLookup fields "subject"),
        jOptStr? (jLookup fields "template_name"), jLookup fields "context",
        jStr? (jLookup fields "recipient_email"), jStr? (jLookup fields "from_email"),
        jStr? (jLookup fields "mail_type"), jNat? (jLookup fields "attempts") with
    | some ts, some sub, some tn, some ctx, some re, some fe, some mt, some att =>
        some ⟨ts, sub, tn, ctx, re, fe, mt, att⟩
    | _, _, _, _, _, _, _, _ => none
  | _ => none

theorem entryFromJson_toJson (e : QueuedEntry) : entryFromJson (entryToJson e) = some e := by
  obtain ⟨ts, sub, tn, ctx, re, fe, mt, att⟩ := e
  cases tn <;>
    simp [entryToJson, entryFromJson, jLookup, jStr?, jOptStr?, jNat?, optStrJson,
      List.find?, show ∀ m : Nat, ¬((m : Int) < 0) from fun m => by omega]

/-- State of the queue file plus fault injection for the two I/O
operations the services perform.  A write failure models `open(..., 'w')`
raising (content unchanged); a read failure models `open(..., 'r')`
raising `OSError`. -/
structure FsState where
  file : Option String
  readFails : Bool
  writeFails : Bool
  deriving DecidableEq, Repr

/-- Result of `_queue_email`: the final file state and the returned flag. -/
structure EnqueueResult where
  fs : FsState
  ok : Bool
  deriving DecidableEq, Repr

/-- `UltraLightMailService._queue_email` (lines 27–65).  Creates the file
with `json.dump([], f)` when missing; reads it, treating
`json.JSONDecodeError` and `FileNotFoundError` as an empty queue; appends
the new entry; writes everything back with `indent=2`.  Every other
exception (a read `OSError`, a non-list JSON document making
`queue.append` fail, a write failure) reaches the outer handler, which
logs and returns `False`. -/
def queueEmail (cfg : MailConfig) (fs : FsState) (now : String) (md : MailData) :
    EnqueueResult :=
  let step1 : Option FsState :=
    match fs.file with
    | none => if fs.writeFails then none else some { fs with file := some "[]" }
    | some _ => some fs
  match step1 with
  | none => ⟨fs, false⟩
  | some fs1 =>
    if fs1.readFails then ⟨fs1, false⟩
    else
      let queue : Option (List Json) :=
        match fs1.file with
        | none => some []
        | some s =>
          match pyJsonLoads s with
          | none => some []
          | some (Json.arr q) => some q
          | some _ => none
      match queue with
      | none => ⟨fs1, false⟩
      | some q =>
        if fs1.writeFails then ⟨fs1, false⟩
        else
          ⟨{ fs1 with file := some (pyJsonDumpsIndent
              (Json.arr (q ++ [entryToJson (mkQueuedEntry cfg now md)]))) }, true⟩

/-- `UltraLightMailService.send_welcome_email` and siblings: skip (and
return `False`) when the service is disabled, otherwise queue. -/
def ultraNotify (cfg : MailConfig) (fs : FsState) (now : String) (md : MailData) :
    EnqueueResult :=
  if cfg.enabled then queueEmail cfg fs now md else ⟨fs, false⟩

/-- `UltraLightMailService.send_welcome_email`. -/
def ultraSendWelcomeEmail (cfg : MailConfig) (fs : FsState) (now : String) (u : UserInfo) :
    EnqueueResult :=
  ultraNotify cfg fs now (ultraWelcomeData cfg u)

/-- `UltraLightMailService.send_farm_setup_reminder`. -/
def ultraSendFarmSetupReminder (cfg : MailConfig) (fs : FsState) (now : String)
    (u : UserInfo) : EnqueueResult :=
  ultraNotify cfg fs now (ultraReminderData cfg u)

/-- `UltraLightMailService.send_weather_alert`. -/
def ultraSendWeatherAlert (cfg : MailConfig) (fs : FsState) (now : String) (u : UserInfo)
    (alert : Json) : EnqueueResult :=
  ultraNotify cfg fs now (ultraWeatherData cfg u alert)

/-- Python truthiness of the parsed queue document (`if not queue`). -/
def jsonFalsy : Json → Bool
  | Json.null => true
  | Json.bool false => true
  | Json.int 0 => true
  | Json.str "" => true
  | Json.arr [] => true
  | Json.obj [] => true
  | _ => false

/-- `UltraLightMailService.get_queue_size` (lines 145–155): `0` when the
file is missing; `len(json.load(f))` otherwise; any exception — unreadable
file, unparseable content, a parsed value without `len()` — is swallowed
by the bare `except` and yields `0`. -/
def getQueueSize (fs : FsState) : Nat :=
  match fs.file with
  | none => 0
  | some s =>
    if fs.readFails then 0
    else
      match pyJsonLoads s with
      | none => 0
      | some (Json.arr l) => l.length
      | some (Json.obj kvs) => kvs.length
      | some (Json.str t) => t.length
      | some _ => 0

/-- Process `queue[:limit]` of the drain (lines 72–93), starting at send
index `i`: a successful send drops the entry, a failure (or an exception
while handling the entry) increments `attempts` and keeps it.  Returns
(kept entries, sent entries, attempted entries), each in queue order. -/
def processQueue (sends : Nat → Bool) :
    List QueuedEntry → Nat → List QueuedEntry × List QueuedEntry × List QueuedEntry
  | [], _ => ([], [], [])
  | e :: tl, i =>
    let r := processQueue sends tl (i + 1)
    if sends i then (r.1, e :: r.2.1, e :: r.2.2)
    else ({ e with attempts := e.attempts + 1 } :: r.1, r.2.1, e :: r.2.2)

/-- Decode every element of the queue document. -/
def decodeEntries : List Json → Option (List QueuedEntry)
  | [] => some []
  | j :: js =>
    match entryFromJson j, decodeEntries js with
    | some e, some es => some (e :: es)
    | _, _ => none

/-- Observable result of one `process_email_queue` invocation. -/
structure DrainResult where
  fs : FsState
  attempted : List QueuedEntry
  sent : List QueuedEntry
  purged : List QueuedEntry
  processedCount : Nat
  failedCount : Nat
  errorLogged : Bool
  raised : Bool
  deriving Repr

/-- `Command.handle` of `process_email_queue.py` (lines 35–108).  A missing
file or an empty queue returns without touching the file.  `--clear-failed`
first drops entries with `attempts >= 3`.  Up to `limit` entries from the
front are attempted; failures are kept with `attempts + 1`; the remainder
of the queue is appended unchanged and the result written back with
`indent=2`.  The whole body sits in a `try/except` that logs any error —
a read failure, unparseable JSON, or a write failure — and returns
normally, so `raised` is `false` on every path.  (Entries are modeled
structurally through `decodeEntries`; the command accesses them duck-typed,
and every queue written by `_queue_email` decodes.) -/
def handleDrain (fs : FsState) (limit : Nat) (clearFailed : Bool) (sends : Nat → Bool) :
    DrainResult :=
  match fs.file with
  | none => ⟨fs, [], [], [], 0, 0, false, false⟩
  | some s =>
    if fs.readFails then ⟨fs, [], [], [], 0, 0, true, false⟩
    else
      match pyJsonLoads s with
      | none => ⟨fs, [], [], [], 0, 0, true, false⟩
      | some j =>
        if jsonFalsy j then ⟨fs, [], [], [], 0, 0, false, false⟩
        else
          match j with
          | Json.arr items =>
            match decodeEntries items with
            | none => ⟨fs, [], [], [], 0, 0, true, false⟩
            | some q0 =>
              let purged := if clearFailed then q0.filter (fun e => ¬e.attempts < 3) else []
              let q := if clearFailed then q0.filter (fun e => e.attempts < 3) else q0
              let r := processQueue sends (q.take limit) 0
              let remaining := r.1 ++ q.drop limit
              if fs.writeFails then
                ⟨fs, r.2.2, r.2.1, purged, r.2.1.length, r.2.2.length - r.2.1.length,
                  true, false⟩
              else
                ⟨{ fs with file := some (pyJsonDumpsIndent
                    (Json.arr (remaining.map entryToJson))) },
                  r.2.2, r.2.1, purged, r.2.1.length, r.2.2.length - r.2.1.length,
                  false, false⟩
          | _ => ⟨fs, [], [], [], 0, 0, true, false⟩

/-- A queue file before any interaction: no file, working I/O. -/
def emptyFs : FsState := ⟨none, false, false⟩

/-- A sequence of Strategy C `notify()` calls (each with its
`timezone.now()` timestamp). -/
def enqueueAll (cfg : MailConfig) : FsState → List (String × MailData) → FsState
  | fs, [] => fs
  | fs, (now, md) :: rest => enqueueAll cfg (queueEmail cfg fs now md).fs rest

/-- The entries a sequence of enqueues produces. -/
def entriesOf (cfg : MailConfig) (items : List (String × MailData)) : List QueuedEntry :=
  items.map (fun it => mkQueuedEntry cfg it.1 it.2)

/-- Fields of an entry other than the retry counter. -/
def entryCore (e : QueuedEntry) :
    String × String × Option String × Json × String × String × String :=
  (e.timestamp, e.subject, e.template_name, e.context, e.recipient_email,
    e.from_email, e.mail_type)

theorem decodeEntries_map (es : List QueuedEntry) :
    decodeEntries (es.map entryToJson) = some es := by
  induction es with
  | nil => rfl
  | cons e es ih => simp [decodeEntries, entryFromJson_toJson, ih]

theorem queueEmail_parse (cfg : MailConfig) {fs : FsState} {s : String} {q : List Json}
    (hr : fs.readFails = false) (hw : fs.writeFails = false)
    (hfile : fs.file = some s) (hparse : pyJsonLoads s = some (Json.arr q))
    (now : String) (md : MailData) :
    queueEmail cfg fs now md =
      ⟨{ fs with file := some (pyJsonDumpsIndent
          (Json.arr (q ++ [entryToJson (mkQueuedEntry cfg now md)]))) }, true⟩ := by
  simp [queueEmail, hfile, hr, hw, hparse]

theorem queueEmail_good (cfg : MailConfig) (l : List Json) (now : String) (md : MailData) :
    queueEmail cfg ⟨some (pyJsonDumpsIndent (Json.arr l)), false, false⟩ now md =
      ⟨⟨some (pyJsonDumpsIndent
          (Json.arr (l ++ [entryToJson (mkQueuedEntry cfg now md)]))), false, false⟩,
        true⟩ :=
  queueEmail_parse cfg rfl rfl rfl (pyJsonLoads_dumpsIndent _) now md

theorem queueEmail_fromEmpty (cfg : MailConfig) (now : String) (md : MailData) :
    queueEmail cfg emptyFs now md =
      ⟨⟨some (pyJsonDumpsIndent
          (Json.arr [entryToJson (mkQueuedEntry cfg now md)])), false, false⟩, true⟩ := by
  have hload : pyJsonLoads "[]" = some (Json.arr []) := by decide
  simp [queueEmail, emptyFs, hload]

theorem enqueueAll_good (cfg : MailConfig) (items : List (String × MailData)) :
    ∀ l : List Json,
      enqueueAll cfg ⟨some (pyJsonDumpsIndent (Json.arr l)), false, false⟩ items =
        ⟨some (pyJsonDumpsIndent
          (Json.arr (l ++ (entriesOf cfg items).map entryToJson))), false, false⟩ := by
  induction items with
  | nil => intro l; simp [enqueueAll, entriesOf]
  | cons it rest ih =>
    intro l
    obtain ⟨now, md⟩ := it
    rw [enqueueAll, queueEmail_good, ih (l ++ [entryToJson (mkQueuedEntry cfg now md)])]
    simp [entriesOf]

theorem enqueueAll_fromEmpty (cfg : MailConfig) (now : String) (md : MailData)
    (rest : List (String × MailData)) :
    enqueueAll cfg emptyFs ((now, md) :: rest) =
      ⟨some (pyJsonDumpsIndent
        (Json.arr ((entriesOf cfg ((now, md) :: rest)).map entryToJson))), false, false⟩ := by
  rw [enqueueAll, queueEmail_fromEmpty, enqueueAll_good cfg rest]
  simp [entriesOf]

/-- The parsed, structurally read content of the queue file. -/
def fileEntries (fs : FsState) : Option (List QueuedEntry) :=
  match fs.file with
  | none => none
  | some s =>
    match pyJsonLoads s with
    | some (Json.arr items) => decodeEntries items
    | _ => none

theorem fileEntries_enqueueAll (cfg : MailConfig) (now : String) (md : MailData)
    (rest : List (String × MailData)) :
    fileEntries (enqueueAll cfg emptyFs ((now, md) :: rest)) =
      some (entriesOf cfg ((now, md) :: rest)) := by
  rw [enqueueAll_fromEmpty, fileEntries]
  simp [pyJsonLoads_dumpsIndent, decodeEntries_map]

theorem processQueue_attempted (sends : Nat → Bool) :
    ∀ (q : List QueuedEntry) (i : Nat), (processQueue sends q i).2.2 = q := by
  intro q
  induction q with
  | nil => intro i; rfl
  | cons e tl ih =>
    intro i
    rw [processQueue]
    split <;> simp [ih]

theorem processQueue_len (sends : Nat → Bool) :
    ∀ (q : List QueuedEntry) (i : Nat),
      (processQueue sends q i).1.length + (processQueue sends q i).2.1.length = q.length := by
  intro q
  induction q with
  | nil => intro i; rfl
  | cons e tl ih =>
    intro i
    rw [processQueue]
    split <;> simp only [List.length_cons] <;> have := ih (i + 1) <;> omega

theorem processQueue_kept (sends : Nat → Bool) :
    ∀ (q : List QueuedEntry) (i : Nat),
      ∀ e ∈ (processQueue sends q i).1,
        ∃ e₀ ∈ q, entryCore e₀ = entryCore e ∧ e.attempts = e₀.attempts + 1 := by
  intro q
  induction q with
  | nil => intro i e he; exact absurd he (by simp [processQueue])
  | cons a tl ih =>
    intro i e he
    rw [processQueue] at he
    split at he
    · obtain ⟨e₀, h₀, hc, ha⟩ := ih (i + 1) e he
      exact ⟨e₀, by simp [h₀], hc, ha⟩
    · rcases List.mem_cons.mp he with rfl | he
      · exact ⟨a, by simp, rfl, rfl⟩
      · obtain ⟨e₀, h₀, hc, ha⟩ := ih (i + 1) e he
        exact ⟨e₀, by simp [h₀], hc, ha⟩

theorem processQueue_sent (sends : Nat → Bool) :
    ∀ (q : List QueuedEntry) (i : Nat), ∀ e ∈ (processQueue sends q i).2.1, e ∈ q := by
  intro q
  induction q with
  | nil => intro i e he; exact absurd he (by simp [processQueue])
  | cons a tl ih =>
    intro i e he
    rw [processQueue] at he
    split at he
    · rcases List.mem_cons.mp he with rfl | he
      · simp
      · exact List.mem_cons_of_mem a (ih (i + 1) e he)
    · exact List.mem_cons_of_mem a (ih (i + 1) e he)

theorem jsonFalsy_map_entries (es : List QueuedEntry) (h : es ≠ []) :
    jsonFalsy (Json.arr (es.map entryToJson)) = false := by
  cases es with
  | nil => exact absurd rfl h
  | cons e es => rfl

/-- `Command.handle` on a well-formed non-empty queue file with working
I/O: the purge, the processed prefix, and the write-back, spelled out. -/
theorem handleDrain_good (es : List QueuedEntry) (h : es ≠ []) (limit : Nat)
    (cf : Bool) (sends : Nat → Bool) :
    handleDrain ⟨some (pyJsonDumpsIndent (Json.arr (es.map entryToJson))), false, false⟩
        limit cf sends =
      ⟨⟨some (pyJsonDumpsIndent (Json.arr
          (((processQueue sends ((if cf then es.filter (fun e => e.attempts < 3) else es).take limit) 0).1 ++
            (if cf then es.filter (fun e => e.attempts < 3) else es).drop limit).map entryToJson))),
          false, false⟩,
        (if cf then es.filter (fun e => e.attempts < 3) else es).take limit,
        (processQueue sends ((if cf then es.filter (fun e => e.attempts < 3) else es).take limit) 0).2.1,
        (if cf then es.filter (fun e => ¬e.attempts < 3) else []),
        (processQueue sends ((if cf then es.filter (fun e => e.attempts < 3) else es).take limit) 0).2.1.length,
        ((if cf then es.filter (fun e => e.attempts < 3) else es).take limit).length -
          (processQueue sends ((if cf then es.filter (fun e => e.attempts < 3) else es).take limit) 0).2.1.length,
        false, false⟩ := by
  rw [handleDrain]
  simp only [pyJsonLoads_dumpsIndent, jsonFalsy_map_entries es h, decodeEntries_map,
    Bool.false_eq_true, if_false]
  rw [processQueue_attempted]

/-!
Strategies A (`AsyncMailService`) and B (`SimpleMailService`).

The rendering and transport calls are oracles: `SendEnv` says whether
`render_to_string` raises, whether `email.send()` raises, and what count
`email.send()` returns.  Exception detail strings are abstracted to fixed
labels — no modeled operation inspects them.
-/

/-- Behaviour of the rendering and transport calls during one send. -/
structure SendEnv where
  renderFails : Bool
  sendRaises : Bool
  sendCount : Nat
  deriving DecidableEq, Repr

/-- One DeliveryOutcome record as written by `_log_mail_activity`. -/
structure Outcome where
  recipient_email : String
  subject : String
  mail_type : String
  status : String
  error : Option String
  deriving DecidableEq, Repr

/-- The `log_entry` both services build. -/
def logMailActivity (md : MailData) (status : String) (error : Option String) : Outcome :=
  ⟨md.recipient_email, md.subject, md.mail_type.getD "unknown", status, error⟩

/-- What a Strategy B `notify()` produces. -/
structure SimpleResult where
  status : Option Bool
  outcomes : List Outcome
  delivered : Bool
  deriving DecidableEq, Repr

/-- `SimpleMailService._send_email_sync` (lines 27–73): render, send, then
decide on `result > 0`; every exception is caught, logged as a failed
outcome, and turned into `False`.  With no template the render step is
skipped (the plain-text branch). -/
def sendEmailSync (env : SendEnv) (md : MailData) : SimpleResult :=
  if md.template_name.isSome && env.renderFails then
    ⟨some false, [logMailActivity md "failed" (some "render error")], false⟩
  else if env.sendRaises then
    ⟨some false, [logMailActivity md "failed" (some "send error")], false⟩
  else if env.sendCount > 0 then
    ⟨some true, [logMailActivity md "sent" none], true⟩
  else
    ⟨some false, [logMailActivity md "failed" (some "Email send returned 0")], false⟩

/-- Strategy B `notify()`: skip (returning `False`, without an outcome
record) when disabled, otherwise `_send_email_sync`. -/
def simpleNotify (cfg : MailConfig) (env : SendEnv) (md : MailData) : SimpleResult :=
  if cfg.enabled then sendEmailSync env md else ⟨some false, [], false⟩

/-- `mail_data` of `SimpleMailService.send_welcome_email` (the Django user
object in the context is represented by the fields the template reads). -/
def simpleWelcomeData (cfg : MailConfig) (u : UserInfo) : MailData where
  mail_type := some "welcome"
  subject := "Welcome to SmartFarm - Your Journey Begins!"
  template_name := some "emails/welcome_email.html"
  context := some (Json.obj [
    ("user", userContext u),
    ("full_name", Json.str u.full_name),
    ("email", Json.str u.email),
    ("registration_date", Json.str u.date_joined_fmt),
    ("farm_name", Json.str (u.farm_name.getD "Your Farm")),
    ("current_year", Json.int cfg.current_year),
    ("site_url", Json.str (siteUrlProd cfg))])
  recipient_email := u.email
  from_email := none
  message := none

/-- `mail_data` of `SimpleMailService.send_farm_setup_reminder`. -/
def simpleReminderData (cfg : MailConfig) (u : UserInfo) : MailData where
  mail_type := some "farm_setup_reminder"
  subject := "Complete Your SmartFarm Profile"
  template_name := some "emails/farm_setup_reminder.html"
  context := some (Json.obj [
    ("user", userContext u),
    ("full_name", Json.str u.full_name),
    ("email", Json.str u.email),
    ("onboarding_url", Json.str (siteUrlProd cfg ++ "/onboarding/")),
    ("current_year", Json.int cfg.current_year),
    ("site_url", Json.str (siteUrlProd cfg))])
  recipient_email := u.email
  from_email := none
  message := none

/-- `mail_data` of `SimpleMailService.send_weather_alert`. -/
def simpleWeatherData (cfg : MailConfig) (u : UserInfo) (alert : Json) : MailData where
  mail_type := some "weather_alert"
  subject := "Weather Alert for " ++ alertLocation alert
  template_name := some "emails/weather_alert.html"
  context := some (Json.obj [
    ("user", userContext u),
    ("full_name", Json.str u.full_name),
    ("alert_data", alert),
    ("current_year", Json.int cfg.current_year),
    ("site_url", Json.str (siteUrlProd cfg))])
  recipient_email := u.email
  from_email := none
  message := none

/-- `SimpleMailService.send_welcome_email`. -/
def simpleSendWelcomeEmail (cfg : MailConfig) (env : SendEnv) (u : UserInfo) : SimpleResult :=
  simpleNotify cfg env (simpleWelcomeData cfg u)

/-- `SimpleMailService.send_farm_setup_reminder`. -/
def simpleSendFarmSetupReminder (cfg : MailConfig) (env : SendEnv) (u : UserInfo) :
    SimpleResult :=
  simpleNotify cfg env (simpleReminderData cfg u)

/-- `SimpleMailService.send_weather_alert`. -/
def simpleSendWeatherAlert (cfg : MailConfig) (env : SendEnv) (u : UserInfo) (alert : Json) :
    SimpleResult :=
  simpleNotify cfg env (simpleWeatherData cfg u alert)

/-- Behaviour of the environment during one Strategy A `notify()`. -/
structure AsyncEnv where
  is_running : Bool
  enqueueRaises : Bool
  runRaises : Bool
  sendEnv : SendEnv
  fallbackFails : Bool
  deriving DecidableEq, Repr

/-- What a Strategy A `notify()` produces.  `status` is the Python return
value: `None` on every path (the early `return` at the queue step and the
fall-through ends of the method return no value). -/
structure AsyncResult where
  status : Option Bool
  queued : Bool
  delivered : Bool
  outcomes : List Outcome
  errorLogged : Bool
  syncSendInvocations : Nat
  deriving DecidableEq, Repr

/-- `AsyncMailService._send_mail_async` (lines 62–105): render and send,
catching every exception; the outcome record is `sent` whenever
`email.send` did not raise (the executor result is not checked against a
count) and `failed` with the error otherwise. -/
def sendMailAsync (env : SendEnv) (md : MailData) : List Outcome × Bool :=
  if md.template_name.isSome && env.renderFails then
    ([logMailActivity md "failed" (some "render error")], false)
  else if env.sendRaises then
    ([logMailActivity md "failed" (some "send error")], false)
  else
    ([logMailActivity md "sent" none], true)

/-- The dispatch logic shared by the three `AsyncMailService.send_*`
methods (lines 141–182, duplicated verbatim at 201–242 and 260–301):
queue and return when the service is running and the cross-thread enqueue
does not raise; otherwise `asyncio.run(self._send_mail_async(...))`; if
that raises, a minimal direct Django send; every failure is logged and
nothing is re-raised, and no path returns a value. -/
def asyncDispatch (env : AsyncEnv) (md : MailData) : AsyncResult :=
  if env.is_running && !env.enqueueRaises then
    ⟨none, true, false, [], false, 0⟩
  else if env.runRaises then
    if env.fallbackFails then ⟨none, false, false, [], true, 1⟩
    else ⟨none, false, true, [], true, 1⟩
  else
    let r := sendMailAsync env.sendEnv md
    ⟨none, false, r.2, r.1, !r.2, 1⟩

/-- `mail_data` of `AsyncMailService.send_welcome_email` (the `user` model
object is represented by its fields; the context is otherwise as built at
lines 125–139, with the development `SITE_URL` default). -/
def asyncWelcomeData (cfg : MailConfig) (u : UserInfo) : MailData where
  mail_type := some "welcome"
  subject := "Welcome to SmartFarm - Your Journey Begins!"
  template_name := some "emails/welcome_email.html"
  context := some (Json.obj [
    ("user", userContext u),
    ("full_name", Json.str u.full_name),
    ("email", Json.str u.email),
    ("registration_date", Json.str u.date_joined_fmt),
    ("farm_name", Json.str (u.farm_name.getD "Your Farm")),
    ("current_year", Json.int cfg.current_year),
    ("site_url", Json.str (siteUrlDev cfg))])
  recipient_email := u.email
  from_email := none
  message := none

/-- `mail_data` of `AsyncMailService.send_farm_setup_reminder`. -/
def asyncReminderData (cfg : MailConfig) (u : UserInfo) : MailData where
  mail_type := some "farm_setup_reminder"
  subject := "Complete Your SmartFarm Profile"
  template_name := some "emails/farm_setup_reminder.html"
  context := some (Json.obj [
    ("user", userContext u),
    ("full_name", Json.str u.full_name),
    ("email", Json.str u.email),
    ("onboarding_url", Json.str (siteUrlDev cfg ++ "/onboarding/")),
    ("current_year", Json.int cfg.current_year),
    ("site_url", Json.str (siteUrlDev cfg))])
  recipient_email := u.email
  from_email := none
  message := none

/-- `mail_data` of `AsyncMailService.send_weather_alert`. -/
def asyncWeatherData (cfg : MailConfig) (u : UserInfo) (alert : Json) : MailData where
  mail_type := some "weather_alert"
  subject := "Weather Alert for " ++ alertLocation alert
  template_name := some "emails/weather_alert.html"
  context := some (Json.obj [
    ("user", userContext u),
    ("full_name", Json.str u.full_name),
    ("alert_data", alert),
    ("current_year", Json.int cfg.current_year),
    ("site_url", Json.str (siteUrlDev cfg))])
  recipient_email := u.email
  from_email := none
  message := none

/-- `AsyncMailService.send_welcome_email`. -/
def asyncSendWelcomeEmail (cfg : MailConfig) (env : AsyncEnv) (u : UserInfo) : AsyncResult :=
  asyncDispatch env (asyncWelcomeData cfg u)

/-- `AsyncMailService.send_farm_setup_reminder`. -/
def asyncSendFarmSetupReminder (cfg : MailConfig) (env : AsyncEnv) (u : UserInfo) :
    AsyncResult :=
  asyncDispatch env (asyncReminderData cfg u)

/-- `AsyncMailService.send_weather_alert`. -/
def asyncSendWeatherAlert (cfg : MailConfig) (env : AsyncEnv) (u : UserInfo) (alert : Json) :
    AsyncResult :=
  asyncDispatch env (asyncWeatherData cfg u alert)

/-!
Strategy A queue/consumer interleaving.  `mail_queue` is an
`asyncio.Queue` (FIFO); `_process_mail_queue` is the single consumer,
taking one entry per `get()` and sending it before the next `get()`.
An event is either a producer enqueue (the queue branch of `notify()`)
or one consumer iteration (`get()` + `_send_mail_async`); a consumer
iteration on an empty queue is the `TimeoutError` branch and does
nothing.
-/

/-- One interleaving event of the Strategy A queue. -/
inductive AEvent where
  | enq (md : MailData)
  | consume

/-- Queue contents and the entries processed so far, in processing order. -/
structure AState where
  queue : List MailData
  processed : List MailData

/-- Effect of one event (`asyncio.Queue.put` appends; `get()` takes the
front). -/
def stepA : AState → AEvent → AState
  | s, AEvent.enq md => ⟨s.queue ++ [md], s.processed⟩
  | s, AEvent.consume =>
    match s.queue with
    | [] => s
    | md :: rest => ⟨rest, s.processed ++ [md]⟩

/-- Run a whole interleaving from an empty service. -/
def runA (evs : List AEvent) : AState :=
  evs.foldl stepA ⟨[], []⟩

/-- The entries enqueued by a trace, in enqueue order. -/
def enqueuedOf (evs : List AEvent) : List MailData :=
  evs.foldr (fun ev acc => match ev with | AEvent.enq md => md :: acc | AEvent.consume => acc) []

theorem stepA_inv (s : AState) (ev : AEvent) :
    (stepA s ev).processed ++ (stepA s ev).queue =
      s.processed ++ s.queue ++ (match ev with | AEvent.enq md => [md] | AEvent.consume => []) := by
  cases ev with
  | enq md => simp [stepA]
  | consume =>
    rw [stepA]
    rcases hq : s.queue with _ | ⟨md, rest⟩
    · simp [hq]
    · simp [hq]

theorem runA_inv (evs : List AEvent) :
    ∀ s : AState, (evs.foldl stepA s).processed ++ (evs.foldl stepA s).queue =
      s.processed ++ s.queue ++ enqueuedOf evs := by
  induction evs with
  | nil => intro s; simp [enqueuedOf]
  | cons ev evs ih =>
    intro s
    rw [List.foldl_cons, ih (stepA s ev), stepA_inv]
    cases ev with
    | enq md => simp [enqueuedOf, List.append_assoc]
    | consume => simp [enqueuedOf]

theorem decodeEntries_append {a b : List Json} {ea eb : List QueuedEntry}
    (ha : decodeEntries a = some ea) (hb : decodeEntries b = some eb) :
    decodeEntries (a ++ b) = some (ea ++ eb) := by
  induction a generalizing ea with
  | nil =>
    simp only [decodeEntries] at ha
    cases ha
    simpa using hb
  | cons j js ih =>
    rw [decodeEntries] at ha
    rcases hj : entryFromJson j with _ | e <;> rw [hj] at ha
    · exact absurd ha (by simp)
    · rcases hjs : decodeEntries js with _ | es <;> rw [hjs] at ha
      · exact absurd ha (by simp)
      · cases ha
        rw [List.cons_append, decodeEntries, hj, ih hjs]
        rfl

theorem length_filter_partition (l : List QueuedEntry) :
    (l.filter (fun e => e.attempts < 3)).length +
      (l.filter (fun e => ¬e.attempts < 3)).length = l.length := by
  induction l with
  | nil => rfl
  | cons e tl ih =>
    simp only [decide_not] at ih ⊢
    by_cases hp : e.attempts < 3 <;> simp [List.filter_cons, hp] <;> omega

theorem jsonFalsy_arr_ne {items : List Json} (h : items ≠ []) :
    jsonFalsy (Json.arr items) = false := by
  cases items with
  | nil => exact absurd rfl h
  | cons j js => rfl

/-- `Command.handle` on any file that parses to a non-empty array of
well-formed entries, with working I/O. -/
theorem handleDrain_parse {fs : FsState} {s : String} {items : List Json}
    {es : List QueuedEntry} (hr : fs.readFails = false) (hw : fs.writeFails = false)
    (hfile : fs.file = some s) (hl : pyJsonLoads s = some (Json.arr items))
    (hd : decodeEntries items = some es) (hne : items ≠ [])
    (limit : Nat) (cf : Bool) (sends : Nat → Bool) :
    handleDrain fs limit cf sends =
      ⟨{ fs with file := some (pyJsonDumpsIndent (Json.arr
          (((processQueue sends ((if cf then es.filter (fun e => e.attempts < 3) else es).take limit) 0).1 ++
            (if cf then es.filter (fun e => e.attempts < 3) else es).drop limit).map entryToJson))) },
        (if cf then es.filter (fun e => e.attempts < 3) else es).take limit,
        (processQueue sends ((if cf then es.filter (fun e => e.attempts < 3) else es).take limit) 0).2.1,
        (if cf then es.filter (fun e => ¬e.attempts < 3) else []),
        (processQueue sends ((if cf then es.filter (fun e => e.attempts < 3) else es).take limit) 0).2.1.length,
        ((if cf then es.filter (fun e => e.attempts < 3) else es).take limit).length -
          (processQueue sends ((if cf then es.filter (fun e => e.attempts < 3) else es).take limit) 0).2.1.length,
        false, false⟩ := by
  rw [handleDrain]
  simp only [hfile, hr, hl, hd, jsonFalsy_arr_ne hne, hw, Bool.false_eq_true, if_false]
  rw [processQueue_attempted]

/-- Shared concrete fixtures for witnesses and counterexamples. -/
def cfgX : MailConfig := ⟨true, "noreply@smartfarm.cm", none, 2024⟩

/-- A concrete registered user. -/
def userX : UserInfo := ⟨"Jane Doe", "jane@example.com", "January 01, 2024", none⟩

/-- The welcome `mail_data` for the concrete user. -/
def mdX : MailData := ultraWelcomeData cfgX userX

/-- Its queue entry at a fixed enqueue time. -/
def entryX : QueuedEntry := mkQueuedEntry cfgX "2024-01-01T00:00:00" mdX

/-- Additional concrete fixtures. -/
def entryX3 : QueuedEntry := { entryX with attempts := 3 }

/-- A well-formed one-entry queue file with working I/O. -/
def fsX : FsState := ⟨some (pyJsonDumpsIndent (Json.arr [entryToJson entryX])), false, false⟩

/-- A well-formed queue file holding one entry with `attempts == 3`. -/
def fsX3 : FsState := ⟨some (pyJsonDumpsIndent (Json.arr [entryToJson entryX3])), false, false⟩

/-- A Strategy A environment: consumer not running, synchronous send succeeds. -/
def aenvX : AsyncEnv := ⟨false, false, false, ⟨false, false, 1⟩, false⟩

/-!
The claims.
-/

/-- C6: a queue of K entries written by a sequence of Strategy C enqueue
operations, read back without an intervening drain (the `json.load` +
field access of the drain command), yields the same K entries with all
fields equal and in the same order. -/
theorem claim6_roundtrip (cfg : MailConfig) (now : String) (md : MailData)
    (rest : List (String × MailData)) :
    fileEntries (enqueueAll cfg emptyFs ((now, md) :: rest)) =
      some (entriesOf cfg ((now, md) :: rest)) ∧
    (entriesOf cfg ((now, md) :: rest)).length = ((now, md) :: rest).length :=
  ⟨fileEntries_enqueueAll cfg now md rest, by simp [entriesOf]⟩

/-- C8: entries that go through the Strategy A in-memory queue are
processed in FIFO enqueue order: after any interleaving of producer
enqueues and consumer iterations, the processed entries are a prefix of
the enqueue order and the queued remainder is the matching suffix. -/
theorem claim8_fifo (evs : List AEvent) :
    (runA evs).processed ++ (runA evs).queue = enqueuedOf evs ∧
    (runA evs).processed = (enqueuedOf evs).take (runA evs).processed.length ∧
    (runA evs).queue = (enqueuedOf evs).drop (runA evs).processed.length := by
  have h : (runA evs).processed ++ (runA evs).queue = enqueuedOf evs := by
    simpa [runA] using runA_inv evs ⟨[], []⟩
  refine ⟨h, ?_, ?_⟩
  · rw [← h, List.take_left]
  · rw [← h, List.drop_left]

/-- C10: `get_queue_size` is total — it returns the array length when the
file holds a valid JSON array and `0` when the file is missing, cannot be
read, or cannot be parsed. -/
theorem claim10_queue_size (fs : FsState) :
    (fs.file = none → getQueueSize fs = 0) ∧
    (fs.readFails = true → getQueueSize fs = 0) ∧
    (∀ s, fs.file = some s → fs.readFails = false → pyJsonLoads s = none →
      getQueueSize fs = 0) ∧
    (∀ s l, fs.file = some s → fs.readFails = false →
      pyJsonLoads s = some (Json.arr l) → getQueueSize fs = l.length) := by
  refine ⟨?_, ?_, ?_, ?_⟩
  · intro h; simp [getQueueSize, h]
  · intro h; rcases hf : fs.file with _ | s <;> simp [getQueueSize, hf, h]
  · intro s hf hr hp; simp [getQueueSize, hf, hr, hp]
  · intro s l hf hr hp; simp [getQueueSize, hf, hr, hp]

/-- C10 witness: a concrete two-element queue file. -/
theorem claim10_queue_size_witness : getQueueSize ⟨some "[1, 2]", false, false⟩ = 2 :=
  (claim10_queue_size ⟨some "[1, 2]", false, false⟩).2.2.2 "[1, 2]"
    [Json.int 1, Json.int 2] rfl rfl (by decide)

theorem decodeEntries_snoc {items : List Json} {es : List QueuedEntry}
    (hd : decodeEntries items = some es) (e : QueuedEntry) :
    decodeEntries (items ++ [entryToJson e]) = some (es ++ [e]) :=
  decodeEntries_append hd (decodeEntries_map [e])

theorem fileEntries_of_items {fs : FsState} {items : List Json} {es : List QueuedEntry}
    (h : fs.file = some (pyJsonDumpsIndent (Json.arr items)))
    (hd : decodeEntries items = some es) :
    fileEntries fs = some es := by
  simp only [fileEntries, h, pyJsonLoads_dumpsIndent]
  exact hd

/-- C4: the `attempts` counter starts at 0 on enqueue (which leaves every
prior entry untouched), and across a drain every surviving entry's counter
is at or above that of the entry it came from; entries leave the queue only
as successful sends or through the explicit purge of entries whose counter
has reached 3. -/
theorem claim4_attempts_monotone (cfg : MailConfig) (fs : FsState) (s : String)
    (items : List Json) (es : List QueuedEntry) (now : String) (md : MailData)
    (limit : Nat) (cf : Bool) (sends : Nat → Bool)
    (hr : fs.readFails = false) (hw : fs.writeFails = false)
    (hfile : fs.file = some s) (hl : pyJsonLoads s = some (Json.arr items))
    (hd : decodeEntries items = some es) (hne : items ≠ []) :
    ((mkQueuedEntry cfg now md).attempts = 0 ∧
      fileEntries (queueEmail cfg fs now md).fs =
        some (es ++ [mkQueuedEntry cfg now md])) ∧
    (∃ after, fileEntries (handleDrain fs limit cf sends).fs = some after ∧
      (∀ e ∈ after, ∃ e₀ ∈ es, entryCore e₀ = entryCore e ∧ e₀.attempts ≤ e.attempts) ∧
      (∀ e ∈ (handleDrain fs limit cf sends).sent, e ∈ es) ∧
      (∀ e ∈ (handleDrain fs limit cf sends).purged, 3 ≤ e.attempts) ∧
      after.length + (handleDrain fs limit cf sends).sent.length +
        (handleDrain fs limit cf sends).purged.length = es.length) := by
  constructor
  · refine ⟨rfl, ?_⟩
    rw [queueEmail_parse cfg hr hw hfile hl now md]
    exact fileEntries_of_items rfl (decodeEntries_snoc hd _)
  · rw [handleDrain_parse hr hw hfile hl hd hne]
    set q : List QueuedEntry :=
      if cf then es.filter (fun e => e.attempts < 3) else es with hq
    have hqes : ∀ e ∈ q, e ∈ es := by
      intro e he
      rw [hq] at he
      rcases cf with _ | _
      · simpa using he
      · have h2 : e ∈ es ∧ e.attempts < 3 := by simpa [hq] using he
        exact h2.1
    refine ⟨(processQueue sends (q.take limit) 0).1 ++ q.drop limit, ?_, ?_, ?_, ?_, ?_⟩
    · exact fileEntries_of_items rfl (decodeEntries_map _)
    · intro e he
      rcases List.mem_append.mp he with hk | hdrop
      · obtain ⟨e₀, h₀, hc, ha⟩ := processQueue_kept sends (q.take limit) 0 e hk
        exact ⟨e₀, hqes e₀ (List.mem_of_mem_take h₀), hc, by omega⟩
      · exact ⟨e, hqes e (List.mem_of_mem_drop hdrop), rfl, le_refl _⟩
    · intro e he
      exact hqes e (List.mem_of_mem_take (processQueue_sent sends (q.take limit) 0 e he))
    · intro e he
      rcases cf with _ | _
      · exact absurd he (by simp)
      · have h2 : e ∈ es ∧ 3 ≤ e.attempts := by simpa using he
        exact h2.2
    · have h1 := processQueue_len sends (q.take limit) 0
      have h2 : (q.take limit).length = min limit q.length := List.length_take limit q
      have h3 : (q.drop limit).length = q.length - limit := List.length_drop limit q
      have h4 : q.length +
          (if cf then es.filter (fun e => ¬e.attempts < 3) else []).length = es.length := by
        rcases cf with _ | _
        · simp [hq]
        · simp only [hq, if_true]
          exact length_filter_partition es
      simp only [List.length_append]
      omega

set_option maxRecDepth 10000 in
/-- C4 witness: a concrete one-entry queue, failing send. -/
theorem claim4_witness :
    fileEntries (queueEmail cfgX fsX "2024-02-02T00:00:00" mdX).fs =
      some [entryX, mkQueuedEntry cfgX "2024-02-02T00:00:00" mdX] := by
  have h := claim4_attempts_monotone cfgX fsX
    (pyJsonDumpsIndent (Json.arr [entryToJson entryX])) [entryToJson entryX] [entryX]
    "2024-02-02T00:00:00" mdX 5 false (fun _ => false) rfl rfl rfl
    (pyJsonLoads_dumpsIndent (Json.arr [entryToJson entryX]))
    (decodeEntries_map [entryX]) (by simp)
  exact h.1.2

set_option maxRecDepth 10000 in
/-- C2 counterexample to the claim as written: one enqueued entry, one
`drain(limit=5, purge_failed=False)` whose send fails.  The entry remains
in the queue file, but its `attempts` counter is `1`, not the unchanged
`0` it was enqueued with (`Command.handle` increments the counter of every
attempted-and-failed entry before writing the queue back). -/
theorem claim2_counterexample :
    (mkQueuedEntry cfgX "2024-01-01T00:00:00" mdX).attempts = 0 ∧
    fileEntries (handleDrain (enqueueAll cfgX emptyFs
        [("2024-01-01T00:00:00", mdX)]) 5 false (fun _ => false)).fs =
      some [{ entryX with attempts := 1 }] :=
  ⟨by decide, by decide⟩

/-- C2 (amended): one drain with `purge_failed=False` over a queue built
by Strategy C enqueues removes exactly the successful sends, capped at
min(limit, queue size); entries beyond the limit remain unchanged, and
attempted-but-failed entries remain with `attempts` incremented by one. -/
theorem claim2_drain_accounting (cfg : MailConfig) (now : String) (md : MailData)
    (rest : List (String × MailData)) (limit : Nat) (sends : Nat → Bool) :
    ∃ after,
      fileEntries (handleDrain (enqueueAll cfg emptyFs ((now, md) :: rest))
          limit false sends).fs = some after ∧
      (handleDrain (enqueueAll cfg emptyFs ((now, md) :: rest))
          limit false sends).sent.length ≤
        min limit (entriesOf cfg ((now, md) :: rest)).length ∧
      after.length + (handleDrain (enqueueAll cfg emptyFs ((now, md) :: rest))
          limit false sends).sent.length =
        (entriesOf cfg ((now, md) :: rest)).length ∧
      ∃ pre, after = pre ++ (entriesOf cfg ((now, md) :: rest)).drop limit ∧
        ∀ e ∈ pre, ∃ e₀ ∈ (entriesOf cfg ((now, md) :: rest)).take limit,
          entryCore e₀ = entryCore e ∧ e.attempts = e₀.attempts + 1 := by
  rw [enqueueAll_fromEmpty]
  set es : List QueuedEntry := entriesOf cfg ((now, md) :: rest) with hes
  have hne : es ≠ [] := by simp [hes, entriesOf]
  rw [handleDrain_good es hne limit false sends]
  simp only [Bool.false_eq_true, if_false]
  refine ⟨(processQueue sends (es.take limit) 0).1 ++ es.drop limit, ?_, ?_, ?_,
    (processQueue sends (es.take limit) 0).1, rfl, ?_⟩
  · exact fileEntries_of_items rfl (decodeEntries_map _)
  · have h1 := processQueue_len sends (es.take limit) 0
    have h2 : (es.take limit).length = min limit es.length := List.length_take limit es
    omega
  · have h1 := processQueue_len sends (es.take limit) 0
    have h2 : (es.take limit).length = min limit es.length := List.length_take limit es
    have h3 : (es.drop limit).length = es.length - limit := List.length_drop limit es
    simp only [List.length_append]
    omega
  · exact processQueue_kept sends (es.take limit) 0

set_option maxRecDepth 10000 in
/-- C5 counterexample to the claim as written: an entry whose `attempts`
counter equals 3, a `drain(purge_failed=False)` whose send succeeds.  The
entry is not retained: `Command.handle` only consults the counter under
`--clear-failed`, so without it the entry is attempted like any other and
removed on success. -/
theorem claim5_counterexample :
    entryX3.attempts = 3 ∧
    (handleDrain fsX3 5 false (fun _ => true)).sent = [entryX3] ∧
    fileEntries (handleDrain fsX3 5 false (fun _ => true)).fs = some [] :=
  ⟨by decide, by decide, by decide⟩

/-- C5 (amended): with `purge_failed=True` every entry whose counter has
reached 3 is removed up front and never attempted (everything attempted
has `attempts < 3`); with `purge_failed=False` nothing is purged and the
front `limit` entries are attempted regardless of their counter, so an
`attempts == 3` entry within the limit is attempted like any other (and
removed if its send succeeds). -/
theorem claim5_purge (fs : FsState) (s : String) (items : List Json)
    (es : List QueuedEntry) (limit : Nat) (sends : Nat → Bool)
    (hr : fs.readFails = false) (hw : fs.writeFails = false)
    (hfile : fs.file = some s) (hl : pyJsonLoads s = some (Json.arr items))
    (hd : decodeEntries items = some es) (hne : items ≠ []) :
    ((handleDrain fs limit true sends).purged =
        es.filter (fun e => ¬e.attempts < 3) ∧
      (handleDrain fs limit true sends).attempted =
        (es.filter (fun e => e.attempts < 3)).take limit ∧
      ∀ e ∈ (handleDrain fs limit true sends).attempted, e.attempts < 3) ∧
    ((handleDrain fs limit false sends).purged = [] ∧
      (handleDrain fs limit false sends).attempted = es.take limit) := by
  rw [handleDrain_parse hr hw hfile hl hd hne limit true sends,
    handleDrain_parse hr hw hfile hl hd hne limit false sends]
  refine ⟨⟨by simp, by simp, ?_⟩, by simp, by simp⟩
  intro e he
  have h3 : e ∈ es.filter (fun e => e.attempts < 3) :=
    List.mem_of_mem_take (by simpa using he)
  have h2 : e ∈ es ∧ e.attempts < 3 := by simpa using h3
  exact h2.2

set_option maxRecDepth 10000 in
/-- C5 witness: the concrete one-entry `attempts == 3` queue under
`drain(purge_failed=True)`: the entry is purged, nothing is attempted. -/
theorem claim5_witness :
    (handleDrain fsX3 5 true (fun _ => true)).purged = [entryX3] ∧
    (handleDrain fsX3 5 true (fun _ => true)).attempted = [] := by
  have h := claim5_purge fsX3 (pyJsonDumpsIndent (Json.arr [entryToJson entryX3]))
    [entryToJson entryX3] [entryX3] 5 (fun _ => true) rfl rfl rfl
    (pyJsonLoads_dumpsIndent (Json.arr [entryToJson entryX3]))
    (decodeEntries_map [entryX3]) (by simp)
  refine ⟨?_, ?_⟩
  · rw [h.1.1]; decide
  · rw [h.1.2.1]; decide

/-- C1 counterexample to the claim as written: a valid request dispatched
through Strategy A with the consumer not running.  No exception escapes
and the synchronous fallback delivers the mail — but the call returns
`None`, not a status value (`send_farm_setup_reminder` returns nothing on
any path). -/
theorem claim1_counterexample :
    (asyncSendFarmSetupReminder cfgX aenvX userX).delivered = true ∧
    (asyncSendFarmSetupReminder cfgX aenvX userX).status = none :=
  ⟨rfl, rfl⟩

/-- C1 (amended): no notify operation lets an exception escape — every
environment (render, transport, loop, enqueue or file failure) yields a
normal return.  Strategies B and C return a boolean status (B's matching
delivery, C's the enqueue flag); Strategy A returns `None` on every path,
so only B and C give their caller a status value. -/
theorem claim1_status (cfg : MailConfig) (aenv : AsyncEnv) (env : SendEnv)
    (fs : FsState) (now : String) (u : UserInfo) (alert : Json) :
    ((asyncSendWelcomeEmail cfg aenv u).status = none ∧
      (asyncSendFarmSetupReminder cfg aenv u).status = none ∧
      (asyncSendWeatherAlert cfg aenv u alert).status = none) ∧
    ((simpleSendWelcomeEmail cfg env u).status =
        some (simpleSendWelcomeEmail cfg env u).delivered ∧
      (simpleSendFarmSetupReminder cfg env u).status =
        some (simpleSendFarmSetupReminder cfg env u).delivered ∧
      (simpleSendWeatherAlert cfg env u alert).status =
        some (simpleSendWeatherAlert cfg env u alert).delivered) ∧
    ((ultraSendWelcomeEmail cfg fs now u).ok =
        (cfg.enabled && (queueEmail cfg fs now (ultraWelcomeData cfg u)).ok) ∧
      (ultraSendFarmSetupReminder cfg fs now u).ok =
        (cfg.enabled && (queueEmail cfg fs now (ultraReminderData cfg u)).ok) ∧
      (ultraSendWeatherAlert cfg fs now u alert).ok =
        (cfg.enabled && (queueEmail cfg fs now (ultraWeatherData cfg u alert)).ok)) := by
  refine ⟨⟨?_, ?_, ?_⟩, ⟨?_, ?_, ?_⟩, ?_, ?_, ?_⟩ <;>
    first
      | (rw [asyncSendWelcomeEmail, asyncDispatch]; split_ifs <;> rfl)
      | (rw [asyncSendFarmSetupReminder, asyncDispatch]; split_ifs <;> rfl)
      | (rw [asyncSendWeatherAlert, asyncDispatch]; split_ifs <;> rfl)
      | (rw [simpleSendWelcomeEmail, simpleNotify]; split_ifs <;>
          (try rw [sendEmailSync]) <;> (try split_ifs) <;> rfl)
      | (rw [simpleSendFarmSetupReminder, simpleNotify]; split_ifs <;>
          (try rw [sendEmailSync]) <;> (try split_ifs) <;> rfl)
      | (rw [simpleSendWeatherAlert, simpleNotify]; split_ifs <;>
          (try rw [sendEmailSync]) <;> (try split_ifs) <;> rfl)
      | (rw [ultraSendWelcomeEmail, ultraNotify]; cases cfg.enabled <;> simp)
      | (rw [ultraSendFarmSetupReminder, ultraNotify]; cases cfg.enabled <;> simp)
      | (rw [ultraSendWeatherAlert, ultraNotify]; cases cfg.enabled <;> simp)

/-- The shared Strategy A dispatch with the consumer not running: the
synchronous path runs exactly once and nothing is returned. -/
theorem asyncDispatch_not_running {env : AsyncEnv} (h : env.is_running = false)
    (md : MailData) :
    (asyncDispatch env md).syncSendInvocations = 1 ∧
    (asyncDispatch env md).status = none := by
  rw [asyncDispatch]
  simp only [h, Bool.false_and, Bool.false_eq_true, if_false]
  split_ifs <;> exact ⟨rfl, rfl⟩

/-- C7 counterexample to the claim as written: consumer not running, the
synchronous fallback succeeds — yet the notify call returns `None`.  The
fallback's result cannot determine a status the method never returns. -/
theorem claim7_counterexample :
    (asyncSendWelcomeEmail cfgX aenvX userX).syncSendInvocations = 1 ∧
    (asyncSendWelcomeEmail cfgX aenvX userX).delivered = true ∧
    (asyncSendWelcomeEmail cfgX aenvX userX).status = none :=
  ⟨rfl, rfl, rfl⟩

/-- C7 (amended): with the consumer not running, every Strategy A notify
runs the synchronous send path exactly once — but the call returns `None`
whatever that send's result, so the result does not reach the caller as a
status. -/
theorem claim7_fallback_once (cfg : MailConfig) (env : AsyncEnv) (u : UserInfo)
    (alert : Json) (h : env.is_running = false) :
    ((asyncSendWelcomeEmail cfg env u).syncSendInvocations = 1 ∧
      (asyncSendWelcomeEmail cfg env u).status = none) ∧
    ((asyncSendFarmSetupReminder cfg env u).syncSendInvocations = 1 ∧
      (asyncSendFarmSetupReminder cfg env u).status = none) ∧
    ((asyncSendWeatherAlert cfg env u alert).syncSendInvocations = 1 ∧
      (asyncSendWeatherAlert cfg env u alert).status = none) :=
  ⟨asyncDispatch_not_running h _, asyncDispatch_not_running h _,
    asyncDispatch_not_running h _⟩

/-- C7 witness: the concrete stopped-consumer environment. -/
theorem claim7_witness :
    aenvX.is_running = false ∧
    (asyncSendWelcomeEmail cfgX aenvX userX).syncSendInvocations = 1 :=
  ⟨rfl, (claim7_fallback_once cfgX aenvX userX Json.null rfl).1.1⟩

/-- A successful `_queue_email` always leaves the file holding a JSON
array ending in the new entry (whatever the prior document held). -/
theorem queueEmail_ok_shape (cfg : MailConfig) (fs : FsState) (now : String)
    (md : MailData) (h : (queueEmail cfg fs now md).ok = true) :
    ∃ q, (queueEmail cfg fs now md).fs.file =
      some (pyJsonDumpsIndent (Json.arr (q ++ [entryToJson (mkQueuedEntry cfg now md)]))) := by
  have hload : pyJsonLoads "[]" = some (Json.arr []) := by decide
  rcases hf : fs.file with _ | s <;>
    rcases hr : fs.readFails with _ | _ <;>
    rcases hw : fs.writeFails with _ | _
  · exact ⟨[], by simp [queueEmail, hf, hr, hw, hload]⟩
  · simp [queueEmail, hf, hr, hw] at h
  · simp [queueEmail, hf, hr, hw, hload] at h
  · simp [queueEmail, hf, hr, hw] at h
  · rcases hp : pyJsonLoads s with _ | j
    · exact ⟨[], by simp [queueEmail, hf, hr, hw, hp]⟩
    · rcases j with _ | b | n | st | q | o
      · simp [queueEmail, hf, hr, hw, hp] at h
      · simp [queueEmail, hf, hr, hw, hp] at h
      · simp [queueEmail, hf, hr, hw, hp] at h
      · simp [queueEmail, hf, hr, hw, hp] at h
      · exact ⟨q, by simp [queueEmail, hf, hr, hw, hp]⟩
      · simp [queueEmail, hf, hr, hw, hp] at h
  · rcases hp : pyJsonLoads s with _ | j
    · simp [queueEmail, hf, hr, hw, hp] at h
    · rcases j with _ | b | n | st | q | o <;> simp [queueEmail, hf, hr, hw, hp] at h
  · simp [queueEmail, hf, hr, hw] at h
  · simp [queueEmail, hf, hr, hw] at h

/-- A queue file holding the serialization of `[]` with a failing write. -/
def fsWF : FsState := ⟨some "[]", false, true⟩

set_option maxRecDepth 10000 in
/-- C3 counterexample to the claim as written: a Strategy C dispatch whose
queue-file write fails.  Strategy C never delivers at dispatch time and
never emits a DeliveryOutcome record, and here nothing is persisted either
(the file is unchanged) — the failure is visible only in the log and in the
returned `False` flag, which is none of the claim's three permitted
outcomes. -/
theorem claim3_counterexample :
    fsWF.writeFails = true ∧
    (ultraSendWelcomeEmail cfgX fsWF "2024-01-01T00:00:00" userX).ok = false ∧
    (ultraSendWelcomeEmail cfgX fsWF "2024-01-01T00:00:00" userX).fs = fsWF :=
  ⟨rfl, by decide, by decide⟩

/-- C3 (amended): no dispatch path is silent — each either delivers,
persists the entry, emits a failed DeliveryOutcome, logs the failure
(Strategy A), or reports it to the caller as a `False` status (Strategies
B and C; Strategy C emits no DeliveryOutcome records at all). -/
theorem claim3_no_silent_drop (cfg : MailConfig) (aenv : AsyncEnv) (env : SendEnv)
    (fs : FsState) (now : String) (md : MailData) :
    ((asyncDispatch aenv md).queued = true ∨ (asyncDispatch aenv md).delivered = true ∨
      (∃ o ∈ (asyncDispatch aenv md).outcomes, o.status = "failed") ∨
      (asyncDispatch aenv md).errorLogged = true) ∧
    ((simpleNotify cfg env md).delivered = true ∨
      (∃ o ∈ (simpleNotify cfg env md).outcomes, o.status = "failed") ∨
      (simpleNotify cfg env md).status = some false) ∧
    ((ultraNotify cfg fs now md).ok = false ∨
      ∃ q, (ultraNotify cfg fs now md).fs.file =
        some (pyJsonDumpsIndent (Json.arr (q ++ [entryToJson (mkQueuedEntry cfg now md)])))) := by
  refine ⟨?_, ?_, ?_⟩
  · rw [asyncDispatch]
    split_ifs with h1 h2 h3
    · left; rfl
    · right; right; right; rfl
    · right; left; rfl
    · rw [sendMailAsync]
      split_ifs with h4 h5
      · right; right; left
        exact ⟨logMailActivity md "failed" (some "render error"), by simp, rfl⟩
      · right; right; left
        exact ⟨logMailActivity md "failed" (some "send error"), by simp, rfl⟩
      · right; left; rfl
  · rw [simpleNotify]
    split_ifs with h1
    · rw [sendEmailSync]
      split_ifs with h2 h3 h4
      · right; right; rfl
      · right; right; rfl
      · left; rfl
      · right; right; rfl
    · right; right; rfl
  · rw [ultraNotify]
    split_ifs with h1
    · by_cases h2 : (queueEmail cfg fs now md).ok = true
      · exact Or.inr (queueEmail_ok_shape cfg fs now md h2)
      · exact Or.inl (by simpa using h2)
    · left; rfl

/-- `Command.handle` returns normally on every path: the whole body sits
in a `try/except Exception` that logs and falls through. -/
theorem handleDrain_raised (fs : FsState) (limit : Nat) (cf : Bool)
    (sends : Nat → Bool) : (handleDrain fs limit cf sends).raised = false := by
  rw [handleDrain]
  repeat' split
  all_goals rfl

/-- A failed write-back leaves the queue file unchanged. -/
theorem handleDrain_writeFail_fs {fs : FsState} (hw : fs.writeFails = true)
    (limit : Nat) (cf : Bool) (sends : Nat → Bool) :
    (handleDrain fs limit cf sends).fs = fs := by
  rw [handleDrain]
  repeat' split
  all_goals first | rfl | simp_all

/-- A failed write-back on a non-empty well-formed queue is logged. -/
theorem handleDrain_writeFail_logged {fs : FsState} {s : String}
    {items : List Json} {es : List QueuedEntry} (hr : fs.readFails = false)
    (hw : fs.writeFails = true) (hfile : fs.file = some s)
    (hl : pyJsonLoads s = some (Json.arr items)) (hd : decodeEntries items = some es)
    (hne : items ≠ []) (limit : Nat) (cf : Bool) (sends : Nat → Bool) :
    (handleDrain fs limit cf sends).errorLogged = true := by
  rw [handleDrain]
  simp only [hfile, hr, hl, hd, jsonFalsy_arr_ne hne, hw, Bool.false_eq_true,
    if_false, if_true]

set_option maxRecDepth 10000 in
/-- C9 counterexample to the claim as written: a drain over a well-formed
one-entry queue whose write-back fails.  The error is logged, but the
command's outer `except` swallows it and `handle` returns normally —
nothing is raised to the batch caller (and the queue file keeps its old
content, so the entries are not lost). -/
theorem claim9_counterexample :
    (handleDrain ⟨fsX.file, false, true⟩ 5 false (fun _ => false)).errorLogged = true ∧
    (handleDrain ⟨fsX.file, false, true⟩ 5 false (fun _ => false)).raised = false ∧
    (handleDrain ⟨fsX.file, false, true⟩ 5 false (fun _ => false)).fs = ⟨fsX.file, false, true⟩ :=
  ⟨by decide, by decide, by decide⟩

/-- C9 (amended): a missing or malformed queue file is treated as an empty
queue — enqueue writes a fresh one-entry array, drain performs no sends and
leaves the file alone (logging the malformed case); a failed write-back
during drain is logged and swallowed, the command returning normally with
the file unchanged.  No path raises to the caller. -/
theorem claim9_queue_io (cfg : MailConfig) (fs : FsState) (s : String)
    (now : String) (md : MailData) (limit : Nat) (cf : Bool) (sends : Nat → Bool) :
    (fs.file = none → fs.readFails = false → fs.writeFails = false →
      queueEmail cfg fs now md =
        ⟨{ fs with file := some (pyJsonDumpsIndent
            (Json.arr [entryToJson (mkQueuedEntry cfg now md)])) }, true⟩) ∧
    (fs.file = some s → pyJsonLoads s = none → fs.readFails = false →
      fs.writeFails = false →
      queueEmail cfg fs now md =
        ⟨{ fs with file := some (pyJsonDumpsIndent
            (Json.arr [entryToJson (mkQueuedEntry cfg now md)])) }, true⟩) ∧
    (fs.file = none →
      handleDrain fs limit cf sends = ⟨fs, [], [], [], 0, 0, false, false⟩) ∧
    (fs.file = some s → fs.readFails = false → pyJsonLoads s = none →
      handleDrain fs limit cf sends = ⟨fs, [], [], [], 0, 0, true, false⟩) ∧
    ((handleDrain fs limit cf sends).raised = false) ∧
    (fs.writeFails = true → (handleDrain fs limit cf sends).fs = fs) ∧
    (∀ items es, fs.file = some s → fs.readFails = false → fs.writeFails = true →
      pyJsonLoads s = some (Json.arr items) → decodeEntries items = some es →
      items ≠ [] → (handleDrain fs limit cf sends).errorLogged = true) := by
  have hload : pyJsonLoads "[]" = some (Json.arr []) := by decide
  refine ⟨?_, ?_, ?_, ?_, handleDrain_raised fs limit cf sends, ?_, ?_⟩
  · intro hf hr hw
    simp [queueEmail, hf, hr, hw, hload]
  · intro hf hp hr hw
    simp [queueEmail, hf, hr, hw, hp]
  · intro hf
    simp [handleDrain, hf]
  · intro hf hr hp
    simp [handleDrain, hf, hr, hp]
  · intro hw
    exact handleDrain_writeFail_fs hw limit cf sends
  · intro items es hf hr hw hl hd hne
    exact handleDrain_writeFail_logged hr hw hf hl hd hne limit cf sends

/-- C9 witness: a malformed file absorbed by enqueue, and a drain over a
missing file returning the untouched state. -/
theorem claim9_witness :
    queueEmail cfgX ⟨some "oops", false, false⟩ "2024-01-01T00:00:00" mdX =
      ⟨⟨some (pyJsonDumpsIndent (Json.arr [entryToJson entryX])), false, false⟩, true⟩ ∧
    handleDrain emptyFs 5 false (fun _ => false) =
      ⟨emptyFs, [], [], [], 0, 0, false, false⟩ :=
  ⟨(claim9_queue_io cfgX ⟨some "oops", false, false⟩ "oops" "2024-01-01T00:00:00" mdX
      5 false (fun _ => false)).2.1 rfl (by decide) rfl rfl,
    (claim9_queue_io cfgX emptyFs "" "2024-01-01T00:00:00" mdX
      5 false (fun _ => false)).2.2.1 rfl⟩

end SmartFarm